import Mathlib

/-
Verification development for the wxffmpeg video converter
(src/wx_ffmpeg_video_converter.cpp).

The development shallowly embeds the conversion engine of the source file:
the timestamp rescaling arithmetic it delegates to libavutil, the packet
rewrite performed on copied packets, the output path derivation, the remux
(stream copy) path and the transcode path of ConverterThread::Entry.  The
two paths are modelled as executable functions that consume an abstract
input file and an environment (codec latencies, injected failure results of
the external calls, the cancellation oracle polled by TestDestroy) and
produce the ordered trace of externally visible events: log lines, progress
posts, cancellation polls, packets written, header and trailer writes, and
the running-flag update.
-/

/-- Minimum value of a 64-bit signed integer.  FFmpeg uses it both as
AV_NOPTS_VALUE and as the overflow error sentinel of av_rescale_rnd. -/
def INT64_MIN : Int := -(2 ^ 63)

/-- Maximum value of a 64-bit signed integer. -/
def INT64_MAX : Int := 2 ^ 63 - 1

/-- Sentinel for an unset timestamp (libavutil). -/
def AV_NOPTS_VALUE : Int := INT64_MIN

/-- Number of internal time base ticks per second (libavutil). -/
def AV_TIME_BASE : Int := 1000000

/-- A rational number as libavutil represents time bases. -/
structure AVRational where
  num : Int
  den : Int
  deriving DecidableEq, Repr

/-- Core rounding arithmetic of libavutil av_rescale_rnd for rounding mode
AV_ROUND_NEAR_INF: a*b/c rounded to the nearest integer with ties away from
zero.  The intended operands have b nonnegative and c positive, so every
integer division below is on nonnegative operands, where Lean division
agrees with the truncating division of the C source. -/
def rescaleNear (a b c : Int) : Int :=
  if a < 0 then -(((-a) * b + c / 2) / c) else (a * b + c / 2) / c

/-- The libavutil function av_rescale_rnd, specialised to the rounding mode
the converter uses (AV_ROUND_NEAR_INF, with or without
AV_ROUND_PASS_MINMAX).  With passMinMax set, the inputs INT64_MIN and
INT64_MAX pass through unchanged, which is how AV_NOPTS_VALUE survives
rescaling.  Otherwise the value is rounded to nearest with ties away from
zero, after clamping an INT64_MIN input to -INT64_MAX (the FFMAX in the C
source); a result that does not fit in int64 is replaced by the error
sentinel INT64_MIN, and so are calls with a nonpositive c or a negative b. -/
def av_rescale_rnd (a b c : Int) (passMinMax : Bool) : Int :=
  if c ≤ 0 ∨ b < 0 then INT64_MIN
  else if passMinMax ∧ (a = INT64_MIN ∨ a = INT64_MAX) then a
  else
    let v := rescaleNear (max a (-INT64_MAX)) b c
    if v < INT64_MIN ∨ INT64_MAX < v then INT64_MIN else v

/-- The libavutil function av_rescale_q_rnd: rescale a from time base bq to
time base cq, i.e. compute a * bq / cq with the given rounding. -/
def av_rescale_q_rnd (a : Int) (bq cq : AVRational) (passMinMax : Bool) : Int :=
  av_rescale_rnd a (bq.num * cq.den) (cq.num * bq.den) passMinMax

/-- The libavutil function av_rescale_q: av_rescale_q_rnd with plain
AV_ROUND_NEAR_INF, without the AV_ROUND_PASS_MINMAX flag. -/
def av_rescale_q (a : Int) (bq cq : AVRational) : Int :=
  av_rescale_q_rnd a bq cq false

/-- Media kind of a stream (codec_type of its codec parameters). -/
inductive MediaKind
  | video
  | audio
  | other
  deriving DecidableEq, Repr

/-- The slice of AVCodecParameters the converter reads or writes: the codec
type, the codec identity, the container-specific codec tag, and an opaque
residue standing for all remaining fields, which avcodec_parameters_copy
copies verbatim. -/
structure CodecParameters where
  codec_type : MediaKind
  codec_id : Nat
  codec_tag : Int
  extradata : Nat
  deriving DecidableEq, Repr

/-- An input stream: its codec parameters and its time base. -/
structure AVStream where
  codecpar : CodecParameters
  time_base : AVRational
  deriving DecidableEq, Repr

/-- Fallback stream value used for the total list lookups of the model. -/
def defaultStream : AVStream :=
  { codecpar := { codec_type := MediaKind.other, codec_id := 0, codec_tag := 0, extradata := 0 }
    time_base := { num := 1, den := 1 } }

/-- The packet fields the converter manipulates. -/
structure AVPacket where
  stream_index : Int
  pts : Int
  dts : Int
  duration : Int
  pos : Int
  payload : Nat
  deriving DecidableEq, Repr

/-- The packet rewrite performed on every copied packet (remux loop and the
non-video branch of the transcode loop): the stream index is remapped, pts
and dts are rescaled with AV_ROUND_NEAR_INF combined with
AV_ROUND_PASS_MINMAX, the duration is rescaled with plain av_rescale_q, and
the byte position field is invalidated to -1. -/
def remuxRewritePacket (pkt : AVPacket) (outIndex : Int) (tbIn tbOut : AVRational) : AVPacket :=
  { pkt with
    stream_index := outIndex
    pts := av_rescale_q_rnd pkt.pts tbIn tbOut true
    dts := av_rescale_q_rnd pkt.dts tbIn tbOut true
    duration := av_rescale_q pkt.duration tbIn tbOut
    pos := -1 }

/-- Nearest integer with ties away from zero, stated on the rationals.  This
is the specification-side description of rounding mode AV_ROUND_NEAR_INF,
against which the integer arithmetic of rescaleNear is checked. -/
def roundAway (q : ℚ) : ℤ :=
  if 0 ≤ q then ⌊q + 1 / 2⌋ else ⌈q - 1 / 2⌉

/-- Index of the last character satisfying a predicate, mirroring
std::string::find_last_of. -/
def find_last_of : List Char → (Char → Bool) → Option Nat
  | [], _ => none
  | c :: rest, p =>
    match find_last_of rest p with
    | some i => some (i + 1)
    | none => if p c then some 0 else none

/-- Path separator set used by make_output_path in the source. -/
def isPathSep (c : Char) : Bool :=
  c == '/' || c == '\\'

/-- The function make_output_path of the source: split the input path at the
last path separator into directory and base name, strip the base name at its
last dot, and append the fixed marker and the requested container extension.
The function is a pure function of its two arguments; in particular it never
consults the file system. -/
def make_output_path (inPath outFmt : List Char) : List Char :=
  let p := find_last_of inPath isPathSep
  let dir := match p with
    | none => []
    | some i => inPath.take (i + 1)
  let base := match p with
    | none => inPath
    | some i => inPath.drop (i + 1)
  let base2 := match find_last_of base (fun c => c == '.') with
    | none => base
    | some d => base.take d
  dir ++ base2 ++ "_converted.".toList ++ outFmt

/-- Exact rescaled value of x from time base tbIn to time base tbOut, rounded
to nearest with ties away from zero over the rationals: the reference value
the integer rescaling is checked against. -/
def exactRescale (x : Int) (tbIn tbOut : AVRational) : Int :=
  roundAway (((x * tbIn.num * tbOut.den : ℤ) : ℚ) / ((tbOut.num * tbIn.den : ℤ) : ℚ))

/-- Externally visible events of a conversion job, listed in emission order
by the run functions below: log lines, progress posts, TestDestroy polls,
codec submissions and retrievals, packets written through the interleaving
writer, the output allocation, file open, header, encoder flush signal,
trailer and handle close, and updates of the running flag. -/
inductive Ev where
  | log (s : String)
  | progress (pct : Int)
  | poll (cancelled : Bool)
  | sendPkt (pts : Int)
  | recvFrame (pts : Int)
  | sendFrame (pts : Int)
  | recvPkt (pts : Int)
  | writePkt (p : AVPacket)
  | writeVid (pts : Int)
  | allocOut
  | openOut
  | header
  | flushEnc
  | trailer
  | closeOut
  | running (b : Bool)
  deriving DecidableEq, Repr

/-- The input file as seen after a successful open and probe: its streams,
its packets in file order, and the container duration in AV_TIME_BASE
units. -/
structure InputFile where
  streams : List AVStream
  packets : List AVPacket
  duration : Int
  deriving Repr

/-- The clamp both progress computations apply after the int cast. -/
def clampPct (x : Int) : Int :=
  if x < 0 then 0 else if x > 100 then 100 else x

/-- Progress percentage as the source computes it: pts times the time base
in seconds times AV_TIME_BASE, times 100, divided by the container duration,
then clamped to the range 0 to 100.  The double arithmetic of the C
expression is carried out exactly over the integers here, with the final
int cast modelled as truncation toward zero. -/
def avPct (pts : Int) (tb : AVRational) (duration : Int) : Int :=
  clampPct (Int.tdiv (pts * tb.num * AV_TIME_BASE * 100) (tb.den * duration))

/-- Stream-table construction of the remux path: one output stream per input
stream, codec parameters copied verbatim with the codec tag cleared, and the
input-to-output mapping recorded; the nextIndex argument mirrors the running
stream_index counter of the source. -/
def remuxSetupStreams : List AVStream → Nat → List CodecParameters × List Int
  | [], _ => ([], [])
  | s :: rest, nextIndex =>
    let out := { s.codecpar with codec_tag := 0 }
    let t := remuxSetupStreams rest (nextIndex + 1)
    (out :: t.1, (nextIndex : Int) :: t.2)

/-- Environment of a remux run: results of the external calls the path
makes.  outTb i is the time base the muxer leaves on output stream i once
the header is written; muxOk n is the result of the n-th
av_interleaved_write_frame call; cancel n is the result of the n-th
TestDestroy poll. -/
structure RemuxEnv where
  outCtxOk : Bool
  needsFile : Bool
  avioOk : Bool
  headerOk : Bool
  outTb : Nat → AVRational
  muxOk : Nat → Bool
  cancel : Nat → Bool

/-- The remux packet loop.  Per packet: drop it when its stream is unmapped,
otherwise rewrite and rescale it and write it through the interleaving
writer, stopping the loop on a mux error; on success post clamped progress
when the container duration is known and the rescaled pts is set, then poll
TestDestroy once, stopping the loop when cancellation is observed.  The two
counters number the mux and poll calls for the environment oracles. -/
def remuxLoop (streams : List AVStream) (mapping : List Int) (env : RemuxEnv)
    (duration : Int) : List AVPacket → Nat → Nat → List Ev
  | [], _, _ => []
  | pkt :: rest, nMux, nPoll =>
    let idx := pkt.stream_index.toNat
    if pkt.stream_index < 0 ∨ (mapping.length : Int) ≤ pkt.stream_index ∨
        mapping.getD idx (-1) < 0 then
      remuxLoop streams mapping env duration rest nMux nPoll
    else
      let inStream := streams.getD idx defaultStream
      let outIdx := (mapping.getD idx (-1)).toNat
      let q := remuxRewritePacket pkt (mapping.getD idx (-1)) inStream.time_base
        (env.outTb outIdx)
      if env.muxOk nMux then
        let pevs := if duration > 0 ∧ q.pts ≠ AV_NOPTS_VALUE then
            [Ev.progress (avPct q.pts (env.outTb outIdx) duration)] else []
        if env.cancel nPoll then
          Ev.writePkt q :: (pevs ++ [Ev.poll true, Ev.log "Conversion cancelled"])
        else
          Ev.writePkt q :: (pevs ++ Ev.poll false ::
            remuxLoop streams mapping env duration rest (nMux + 1) (nPoll + 1))
      else
        [Ev.log "Error muxing packet"]

/-- Result of a conversion run: the trace of events and whether control
reached the packet loop. -/
structure RunResult where
  trace : List Ev
  reachedLoop : Bool
  deriving DecidableEq, Repr

/-- The remux (stream copy) path of ConverterThread::Entry, entered after a
successful open and probe of the input.  Allocation, file open and header
failures return early; once the loop is reached, the trailer write, the
handle close, the final log line and the running flag reset run
unconditionally after the loop exits, however it exits. -/
def remuxRun (inp : InputFile) (env : RemuxEnv) (outPath : String) : RunResult :=
  let evs0 := [Ev.log "Starting remux (stream-copy) conversion..."]
  if ¬ env.outCtxOk then
    { trace := evs0 ++ [Ev.log "Could not create output context (unsupported format?)"]
      reachedLoop := false }
  else
    let mapping := (remuxSetupStreams inp.streams 0).2
    let evs1 := evs0 ++ [Ev.allocOut]
    if env.needsFile ∧ ¬ env.avioOk then
      { trace := evs1 ++ [Ev.log "Could not open output file: "], reachedLoop := false }
    else
      let evs2 := evs1 ++ (if env.needsFile then [Ev.openOut] else [])
      if ¬ env.headerOk then
        { trace := evs2 ++ [Ev.log "Error occurred when writing header"] ++
            (if env.needsFile then [Ev.closeOut] else [])
          reachedLoop := false }
      else
        let loopEvs := remuxLoop inp.streams mapping env inp.duration inp.packets 0 0
        { trace := evs2 ++ [Ev.header] ++ loopEvs ++ [Ev.trailer] ++
            (if env.needsFile then [Ev.closeOut] else []) ++
            [Ev.log ("Remux finished. Output: " ++ outPath), Ev.running false]
          reachedLoop := true }

/-- First-video-stream scan of the transcode path: index of the first stream
whose codec type is video. -/
def findVideoStreamIndex : List AVStream → Option Nat
  | [] => none
  | s :: rest =>
    if s.codecpar.codec_type = MediaKind.video then some 0
    else (findVideoStreamIndex rest).map (· + 1)

/-- Stream-mapping construction of the transcode path: every input stream
receives an output stream (the selected video stream a placeholder later
populated from the encoder, the others a verbatim parameter copy), and the
mapping records the running output counter. -/
def transSetupMapping : List AVStream → Nat → List Int
  | [], _ => []
  | _ :: rest, nextIndex => (nextIndex : Int) :: transSetupMapping rest (nextIndex + 1)

/-- Environment of a transcode run: the buffering latencies of the decoder
and encoder queues, success of the setup calls, the post-header time bases,
and the results of the per-call external operations, indexed by call
count. -/
structure TransEnv where
  decDelay : Nat
  encDelay : Nat
  decoderFound : Bool
  decOpenOk : Bool
  outCtxOk : Bool
  encoderFound : Bool
  encOpenOk : Bool
  needsFile : Bool
  avioOk : Bool
  headerOk : Bool
  encTb : AVRational
  outVidTb : AVRational
  outTb : Nat → AVRational
  sendPktOk : Nat → Bool
  recvFrameErr : Nat → Bool
  sendFrameOk : Nat → Bool
  recvPktErr : Nat → Bool
  muxOk : Nat → Bool
  cancel : Nat → Bool

/-- Call counters threaded through the transcode loop, numbering the calls
of each external operation for the environment oracles. -/
structure Counters where
  nSendPkt : Nat
  nRecvFrame : Nat
  nSendFrame : Nat
  nRecvPkt : Nat
  nMux : Nat
  nPoll : Nat
  deriving DecidableEq, Repr

/-- Initial call counters. -/
def counters0 : Counters :=
  { nSendPkt := 0, nRecvFrame := 0, nSendFrame := 0, nRecvPkt := 0, nMux := 0, nPoll := 0 }

/-- How a stage hands control back to the read loop: continue, break out of
the loop (end of stream or a decoder submit error, after which the encoder
flush and the trailer still run), or jump to the cleanup label (skipping
both the flush and the trailer). -/
inductive VFlow
  | cont
  | brk
  | clean
  deriving DecidableEq, Repr

/-- Timestamp rescaling applied to each encoded packet before muxing
(av_packet_rescale_ts from the encoder time base to the output video stream
time base): plain av_rescale_q, applied only when the timestamp is set. -/
def rescaleVidPts (p : Int) (encTb outVidTb : AVRational) : Int :=
  if p = AV_NOPTS_VALUE then p else av_rescale_q p encTb outVidTb

/-- Encoder drain loop of the per-frame processing: receive encoded packets
until the encoder reports that none is ready, rescaling each to the output
video stream time base and writing it through the interleaving writer; a
receive error or a mux error jumps to cleanup.  The encoder is modelled as
a queue that withholds its units while at most encDelay of them are
buffered. -/
def drainEnc (env : TransEnv) : List Int → Counters → VFlow × List Int × Counters × List Ev
  | enc, k =>
    if env.recvPktErr k.nRecvPkt then
      (VFlow.clean, enc, { k with nRecvPkt := k.nRecvPkt + 1 }, [Ev.log "Error during encoding"])
    else
      match enc with
      | [] => (VFlow.cont, [], { k with nRecvPkt := k.nRecvPkt + 1 }, [])
      | p :: rest =>
        if env.encDelay < rest.length + 1 then
          let rp := rescaleVidPts p env.encTb env.outVidTb
          let k1 := { k with nRecvPkt := k.nRecvPkt + 1 }
          if env.muxOk k1.nMux then
            let t := drainEnc env rest { k1 with nMux := k1.nMux + 1 }
            (t.1, t.2.1, t.2.2.1, Ev.recvPkt p :: Ev.writeVid rp :: t.2.2.2)
          else
            (VFlow.clean, rest, { k1 with nMux := k1.nMux + 1 },
              [Ev.recvPkt p, Ev.writeVid rp, Ev.log "Error muxing encoded packet"])
        else
          (VFlow.cont, p :: rest, { k with nRecvPkt := k.nRecvPkt + 1 }, [])

/-- Processing of one decoded frame: pixel conversion (pts preserved, as the
source copies frame pts onto the converted frame), submission to the
encoder, then the encoder drain. -/
def procFrame (env : TransEnv) (f : Int) (enc : List Int) (k : Counters) :
    VFlow × List Int × Counters × List Ev :=
  if env.sendFrameOk k.nSendFrame then
    let t := drainEnc env (enc ++ [f]) { k with nSendFrame := k.nSendFrame + 1 }
    (t.1, t.2.1, t.2.2.1, Ev.sendFrame f :: t.2.2.2)
  else
    (VFlow.clean, enc, { k with nSendFrame := k.nSendFrame + 1 },
      [Ev.log "Error sending frame to encoder"])

/-- Decoder drain loop of the video branch: receive frames until the decoder
reports that none is ready; for each frame obtained, convert and encode it,
post clamped progress when the container duration is known and the frame
pts is set, and poll TestDestroy once, jumping to cleanup when cancellation
is observed.  The decoder is modelled as a queue that withholds its units
while at most decDelay of them are buffered. -/
def drainDec (env : TransEnv) (duration : Int) (inVidTb : AVRational) :
    List Int → List Int → Counters → VFlow × List Int × List Int × Counters × List Ev
  | dec, enc, k =>
    if env.recvFrameErr k.nRecvFrame then
      (VFlow.clean, dec, enc, { k with nRecvFrame := k.nRecvFrame + 1 },
        [Ev.log "Error during decoding"])
    else
      match dec with
      | [] => (VFlow.cont, [], enc, { k with nRecvFrame := k.nRecvFrame + 1 }, [])
      | f :: rest =>
        if env.decDelay < rest.length + 1 then
          let k1 := { k with nRecvFrame := k.nRecvFrame + 1 }
          let t := procFrame env f enc k1
          match t.1 with
          | VFlow.clean => (VFlow.clean, rest, t.2.1, t.2.2.1, Ev.recvFrame f :: t.2.2.2)
          | _ =>
            let pevs := if duration > 0 ∧ f ≠ AV_NOPTS_VALUE then
                [Ev.progress (avPct f inVidTb duration)] else []
            if env.cancel t.2.2.1.nPoll then
              (VFlow.clean, rest, t.2.1, { t.2.2.1 with nPoll := t.2.2.1.nPoll + 1 },
                Ev.recvFrame f :: t.2.2.2 ++ pevs ++ [Ev.poll true, Ev.log "Conversion cancelled"])
            else
              let u := drainDec env duration inVidTb rest t.2.1
                { t.2.2.1 with nPoll := t.2.2.1.nPoll + 1 }
              (u.1, u.2.1, u.2.2.1, u.2.2.2.1,
                Ev.recvFrame f :: t.2.2.2 ++ pevs ++ Ev.poll false :: u.2.2.2.2)
        else
          (VFlow.cont, f :: rest, enc, { k with nRecvFrame := k.nRecvFrame + 1 }, [])

/-- The transcode read loop, over the packets in file order.  A video packet
is submitted to the decoder (a submit error breaks out of the loop, after
which the flush and trailer still run) and the decoder is drained; any other
packet follows the remux copy procedure, a mux error there jumping to
cleanup.  The first component of the result records whether the loop exited
by jumping to cleanup. -/
def transLoop (env : TransEnv) (streams : List AVStream) (mapping : List Int)
    (vidIdx : Nat) (duration : Int) :
    List AVPacket → List Int → List Int → Counters →
      Bool × List Int × List Int × Counters × List Ev
  | [], dec, enc, k => (false, dec, enc, k, [])
  | pkt :: rest, dec, enc, k =>
    if pkt.stream_index = (vidIdx : Int) then
      if env.sendPktOk k.nSendPkt then
        let inVidTb := (streams.getD vidIdx defaultStream).time_base
        let t := drainDec env duration inVidTb (dec ++ [pkt.pts]) enc
          { k with nSendPkt := k.nSendPkt + 1 }
        match t.1 with
        | VFlow.clean => (true, t.2.1, t.2.2.1, t.2.2.2.1, Ev.sendPkt pkt.pts :: t.2.2.2.2)
        | _ =>
          let u := transLoop env streams mapping vidIdx duration rest t.2.1 t.2.2.1 t.2.2.2.1
          (u.1, u.2.1, u.2.2.1, u.2.2.2.1, Ev.sendPkt pkt.pts :: t.2.2.2.2 ++ u.2.2.2.2)
      else
        (false, dec, enc, { k with nSendPkt := k.nSendPkt + 1 },
          [Ev.log "Error sending packet to decoder"])
    else
      let idx := pkt.stream_index.toNat
      if pkt.stream_index < 0 ∨ (mapping.length : Int) ≤ pkt.stream_index ∨
          mapping.getD idx (-1) < 0 then
        transLoop env streams mapping vidIdx duration rest dec enc k
      else
        let inStream := streams.getD idx defaultStream
        let outIdx := (mapping.getD idx (-1)).toNat
        let q := remuxRewritePacket pkt (mapping.getD idx (-1)) inStream.time_base
          (env.outTb outIdx)
        if env.muxOk k.nMux then
          let u := transLoop env streams mapping vidIdx duration rest dec enc
            { k with nMux := k.nMux + 1 }
          (u.1, u.2.1, u.2.2.1, u.2.2.2.1, Ev.writePkt q :: u.2.2.2.2)
        else
          (true, dec, enc, { k with nMux := k.nMux + 1 },
            [Ev.log "Error muxing packet for non-video stream"])

/-- Encoder flush loop run after the read loop ends without a cleanup jump:
drain every remaining buffered packet out of the encoder; a receive error
logs and stops the flush, and the result of the write call is ignored.  The
first component of the result is what remains buffered in the encoder. -/
def drainEncFlush (env : TransEnv) : List Int → Counters → List Int × Counters × List Ev
  | enc, k =>
    if env.recvPktErr k.nRecvPkt then
      (enc, { k with nRecvPkt := k.nRecvPkt + 1 }, [Ev.log "Error flushing encoder"])
    else
      match enc with
      | [] => ([], { k with nRecvPkt := k.nRecvPkt + 1 }, [])
      | p :: rest =>
        let rp := rescaleVidPts p env.encTb env.outVidTb
        let t := drainEncFlush env rest
          { k with nRecvPkt := k.nRecvPkt + 1, nMux := k.nMux + 1 }
        (t.1, t.2.1, Ev.recvPkt p :: Ev.writeVid rp :: t.2.2)

/-- Result of a transcode run: the trace, the frames still buffered inside
the decoder and the packets still buffered inside the encoder when the
thread returns, whether the packet loop was reached, and whether the exit
jumped straight to cleanup. -/
structure TransResult where
  trace : List Ev
  decLeft : List Int
  encLeft : List Int
  reachedLoop : Bool
  jumped : Bool
  deriving DecidableEq, Repr

/-- The transcode path of ConverterThread::Entry, entered after a successful
open and probe of the input.  The prologue selects the first video stream
(failing without ever allocating the output context when there is none),
opens the decoder, allocates the output, builds the stream table, opens the
encoder, opens the output file and writes the header; the loop then runs,
followed on a non-jump exit by the encoder flush and the trailer; every exit
from the loop ends in the cleanup block, which closes the output handle,
resets the running flag and logs the terminal line. -/
def transcodeRun (inp : InputFile) (env : TransEnv) (outPath : String) : TransResult :=
  let evs0 := [Ev.log "Starting encoding conversion..."]
  match findVideoStreamIndex inp.streams with
  | none =>
    { trace := evs0 ++ [Ev.log "No video stream found for re-encoding"]
      decLeft := [], encLeft := [], reachedLoop := false, jumped := false }
  | some vidIdx =>
    if ¬ env.decoderFound then
      { trace := evs0 ++ [Ev.log "Decoder not found"]
        decLeft := [], encLeft := [], reachedLoop := false, jumped := false }
    else if ¬ env.decOpenOk then
      { trace := evs0 ++ [Ev.log "Failed to open decoder"]
        decLeft := [], encLeft := [], reachedLoop := false, jumped := false }
    else if ¬ env.outCtxOk then
      { trace := evs0 ++ [Ev.log "Could not create output context"]
        decLeft := [], encLeft := [], reachedLoop := false, jumped := false }
    else
      let mapping := transSetupMapping inp.streams 0
      let evs1 := evs0 ++ [Ev.allocOut]
      if ¬ env.encoderFound then
        { trace := evs1 ++ [Ev.log "H.264 encoder not found"]
          decLeft := [], encLeft := [], reachedLoop := false, jumped := false }
      else if ¬ env.encOpenOk then
        { trace := evs1 ++ [Ev.log "Failed to open encoder"]
          decLeft := [], encLeft := [], reachedLoop := false, jumped := false }
      else if env.needsFile ∧ ¬ env.avioOk then
        { trace := evs1 ++ [Ev.log "Could not open output file: "]
          decLeft := [], encLeft := [], reachedLoop := false, jumped := false }
      else
        let evs2 := evs1 ++ (if env.needsFile then [Ev.openOut] else [])
        if ¬ env.headerOk then
          { trace := evs2 ++ [Ev.log "Error occurred when writing header"] ++
              (if env.needsFile then [Ev.closeOut] else [])
            decLeft := [], encLeft := [], reachedLoop := false, jumped := false }
        else
          let evs3 := evs2 ++ [Ev.header]
          let t := transLoop env inp.streams mapping vidIdx inp.duration inp.packets [] []
            counters0
          let cleanupEvs := (if env.needsFile then [Ev.closeOut] else []) ++
            [Ev.running false, Ev.log ("Conversion finished. Output: " ++ outPath)]
          if t.1 then
            { trace := evs3 ++ t.2.2.2.2 ++ cleanupEvs
              decLeft := t.2.1, encLeft := t.2.2.1, reachedLoop := true, jumped := true }
          else
            let fl := drainEncFlush env t.2.2.1 t.2.2.2.1
            { trace := evs3 ++ t.2.2.2.2 ++ [Ev.flushEnc] ++ fl.2.2 ++ [Ev.trailer] ++ cleanupEvs
              decLeft := t.2.1, encLeft := fl.1, reachedLoop := true, jumped := false }

/-- Recognizer for poll events. -/
def isPoll : Ev → Bool
  | Ev.poll _ => true
  | _ => false

/-- Recognizer for decoder submissions. -/
def isSendPkt : Ev → Bool
  | Ev.sendPkt _ => true
  | _ => false

/-- Recognizer for frames obtained from the decoder. -/
def isRecvFrame : Ev → Bool
  | Ev.recvFrame _ => true
  | _ => false

/-- Recognizer for encoder submissions. -/
def isSendFrame : Ev → Bool
  | Ev.sendFrame _ => true
  | _ => false

/-- Recognizer for packets obtained from the encoder. -/
def isRecvPkt : Ev → Bool
  | Ev.recvPkt _ => true
  | _ => false

/-- Recognizer for copied packets written through the interleaving writer. -/
def isWritePkt : Ev → Bool
  | Ev.writePkt _ => true
  | _ => false

/-- Recognizer for progress posts. -/
def isProgressEv : Ev → Bool
  | Ev.progress _ => true
  | _ => false

/-- Recognizer for the per-packet work of the processing loops: codec calls,
writes, progress posts and cancellation polls.  Termination events (flush
signal, trailer, close, running flag, log lines) are not loop work. -/
def isLoopWork : Ev → Bool
  | Ev.poll _ => true
  | Ev.sendPkt _ => true
  | Ev.recvFrame _ => true
  | Ev.sendFrame _ => true
  | Ev.recvPkt _ => true
  | Ev.writePkt _ => true
  | Ev.writeVid _ => true
  | Ev.progress _ => true
  | _ => false

/-- The progress percentages of a trace, in emission order. -/
def progressVals : List Ev → List Int
  | [] => []
  | Ev.progress p :: rest => p :: progressVals rest
  | _ :: rest => progressVals rest

/-- An occurrence of a strictly before an occurrence of b in the list l. -/
def seqIn (l : List Ev) (a b : Ev) : Prop :=
  ∃ l1 l2 l3, l = l1 ++ a :: (l2 ++ b :: l3)

/-- A video input stream used by the concrete runs below. -/
def vStream : AVStream :=
  { codecpar := { codec_type := MediaKind.video, codec_id := 27, codec_tag := 7, extradata := 1 }
    time_base := { num := 1, den := 1 } }

/-- An audio input stream used by the concrete runs below. -/
def aStream : AVStream :=
  { codecpar := { codec_type := MediaKind.audio, codec_id := 86018, codec_tag := 3, extradata := 2 }
    time_base := { num := 1, den := 48000 } }

/-- A packet of stream 0 with the given pts. -/
def mkVidPkt (p : Int) : AVPacket :=
  { stream_index := 0, pts := p, dts := p, duration := 1, pos := 100, payload := 5 }

/-- All-success remux environment: output allocation, file open, header and
every mux write succeed, and cancellation is never signalled. -/
def remuxEnvOk : RemuxEnv :=
  { outCtxOk := true, needsFile := true, avioOk := true, headerOk := true
    outTb := fun _ => { num := 1, den := 1 }, muxOk := fun _ => true, cancel := fun _ => false }

/-- All-success transcode environment with the given decoder and encoder
latencies. -/
def transEnvOk (d e : Nat) : TransEnv :=
  { decDelay := d, encDelay := e, decoderFound := true, decOpenOk := true, outCtxOk := true
    encoderFound := true, encOpenOk := true, needsFile := true, avioOk := true, headerOk := true
    encTb := { num := 1, den := 25 }, outVidTb := { num := 1, den := 25 }
    outTb := fun _ => { num := 1, den := 1 }
    sendPktOk := fun _ => true, recvFrameErr := fun _ => false, sendFrameOk := fun _ => true
    recvPktErr := fun _ => false, muxOk := fun _ => true, cancel := fun _ => false }

/-- One video stream, two packets with decreasing pts, known duration of ten
seconds: an input on which the remux loop posts decreasing progress. -/
def inpRemuxDec : InputFile :=
  { streams := [vStream], packets := [mkVidPkt 8, mkVidPkt 4], duration := 10000000 }

/-- One video stream, one packet, unknown duration. -/
def inpVid1 : InputFile :=
  { streams := [vStream], packets := [mkVidPkt 0], duration := 0 }

/-- One video stream, two packets, unknown duration. -/
def inpVid2 : InputFile :=
  { streams := [vStream], packets := [mkVidPkt 0, mkVidPkt 1], duration := 0 }

/-- One video stream, one packet with pts 3, unknown duration. -/
def inpVid3 : InputFile :=
  { streams := [vStream], packets := [mkVidPkt 3], duration := 0 }

/-- An audio-only input. -/
def inpAudioOnly : InputFile :=
  { streams := [aStream], packets := [], duration := 0 }

/-
Classifiers, trace predicates and concrete inputs used by the theorems,
followed by the theorems: first the rescaling arithmetic, then the output
path derivation, then the trace properties of the two conversion paths.
-/

/-- Events a drainEnc or drainEncFlush call can emit. -/
def isEncEv (e : Ev) : Bool :=
  match e with
  | Ev.recvPkt _ => true
  | Ev.writeVid _ => true
  | Ev.log _ => true
  | _ => false

/-- Events a procFrame call can emit. -/
def isProcFrameEv (e : Ev) : Bool :=
  match e with
  | Ev.sendFrame _ => true
  | _ => isEncEv e

/-- Events a drainDec call can emit. -/
def isDecEv (e : Ev) : Bool :=
  match e with
  | Ev.recvFrame _ => true
  | Ev.progress _ => true
  | Ev.poll _ => true
  | _ => isProcFrameEv e

/-- Events a transLoop call can emit. -/
def isTransLoopEv (e : Ev) : Bool :=
  match e with
  | Ev.sendPkt _ => true
  | Ev.writePkt _ => true
  | _ => isDecEv e

/-- Events a remuxLoop call can emit. -/
def isRemuxEv (e : Ev) : Bool :=
  match e with
  | Ev.writePkt _ => true
  | Ev.progress _ => true
  | Ev.poll _ => true
  | Ev.log _ => true
  | _ => false

/-- A progress event that violates the claimed bounds for the given
duration: value outside 0 to 100, or emitted although the duration is not
positive. -/
def isBadProgress (duration : Int) (e : Ev) : Bool :=
  match e with
  | Ev.progress q => decide (q < 0 ∨ 100 < q ∨ duration ≤ 0)
  | _ => false

/-- A poll event that observed cancellation. -/
def isCancelPoll (e : Ev) : Bool :=
  match e with
  | Ev.poll true => true
  | _ => false

/-- The transcode environment reports no decode, encode or mux failures. -/
def TransEnvNoFail (env : TransEnv) : Prop :=
  (∀ n, env.recvFrameErr n = false) ∧ (∀ n, env.sendFrameOk n = true) ∧
  (∀ n, env.recvPktErr n = false) ∧ (∀ n, env.muxOk n = true)

/-- Cancellation is never signalled. -/
def TransEnvNoCancel (env : TransEnv) : Prop :=
  ∀ n, env.cancel n = false

/-- After an observed cancellation poll, no further loop work appears: every
decomposition of the list at a positive poll has a work-free tail. -/
def stopAfterCancel (l : List Ev) : Prop :=
  ∀ l1 l2, l = l1 ++ Ev.poll true :: l2 → List.countP isLoopWork l2 = 0

/-- The events of the remux path before its packet loop. -/
def remuxStartEvs (env : RemuxEnv) : List Ev :=
  [Ev.log "Starting remux (stream-copy) conversion...", Ev.allocOut] ++
    (if env.needsFile then [Ev.openOut] else []) ++ [Ev.header]

/-- The events of the remux path after its packet loop: trailer, close,
final log, running flag reset. -/
def remuxTailEvs (env : RemuxEnv) (outPath : String) : List Ev :=
  Ev.trailer :: ((if env.needsFile then [Ev.closeOut] else []) ++
    [Ev.log ("Remux finished. Output: " ++ outPath), Ev.running false])

/-- The events of the transcode path before its read loop. -/
def transStartEvs (env : TransEnv) : List Ev :=
  [Ev.log "Starting encoding conversion...", Ev.allocOut] ++
    (if env.needsFile then [Ev.openOut] else []) ++ [Ev.header]

/-- The events of the transcode cleanup block: close, running flag reset,
terminal log line. -/
def transCleanupEvs (env : TransEnv) (outPath : String) : List Ev :=
  (if env.needsFile then [Ev.closeOut] else []) ++
    [Ev.running false, Ev.log ("Conversion finished. Output: " ++ outPath)]

def remuxEnvCancel : RemuxEnv :=
  { remuxEnvOk with cancel := fun _ => true }

def transEnvCancel : TransEnv :=
  { transEnvOk 0 0 with cancel := fun _ => true }

theorem ediv_half_eq_floor (n c : ℤ) (hc : 0 < c) :
    (n + c / 2) / c = ⌊(n : ℚ) / (c : ℚ) + 1 / 2⌋ := by
  have hc0 : c ≠ 0 := hc.ne'
  have heq := Int.emod_add_ediv (n + c / 2) c
  have hr0 : 0 ≤ (n + c / 2) % c := Int.emod_nonneg _ hc0
  have hr1 : (n + c / 2) % c < c := Int.emod_lt_of_pos _ hc
  have ht := Int.emod_add_ediv c 2
  have hu0 : 0 ≤ c % 2 := Int.emod_nonneg _ (by norm_num)
  have hu1 : c % 2 < 2 := Int.emod_lt_of_pos _ (by norm_num)
  have hx : (n : ℚ) / (c : ℚ) + 1 / 2 = ((2 * n + c : ℤ) : ℚ) / ((2 * c : ℤ) : ℚ) := by
    have hcq : ((c : ℚ)) ≠ 0 := by exact_mod_cast hc0
    push_cast
    field_simp
    ring
  symm
  rw [Int.floor_eq_iff, hx]
  have h2c : (0 : ℚ) < ((2 * c : ℤ) : ℚ) := by
    have : (0 : ℤ) < 2 * c := by omega
    exact_mod_cast this
  constructor
  · rw [le_div_iff₀ h2c]
    have h : ((n + c / 2) / c) * (2 * c) ≤ 2 * n + c := by
      nlinarith [heq, hr0, hr1, ht, hu0, hu1]
    calc (((n + c / 2) / c : ℤ) : ℚ) * ((2 * c : ℤ) : ℚ)
        = (((n + c / 2) / c * (2 * c) : ℤ) : ℚ) := by push_cast; ring
      _ ≤ (((2 * n + c) : ℤ) : ℚ) := by exact_mod_cast h
  · rw [div_lt_iff₀ h2c]
    have h : 2 * n + c < ((n + c / 2) / c + 1) * (2 * c) := by
      nlinarith [heq, hr0, hr1, ht, hu0, hu1]
    calc (((2 * n + c) : ℤ) : ℚ) < ((((n + c / 2) / c + 1) * (2 * c) : ℤ) : ℚ) := by
          exact_mod_cast h
      _ = ((((n + c / 2) / c : ℤ) : ℚ) + 1) * ((2 * c : ℤ) : ℚ) := by push_cast; ring

theorem rescaleNear_eq_roundAway (a b c : ℤ) (hb : 0 ≤ b) (hc : 0 < c) :
    rescaleNear a b c = roundAway ((a : ℚ) * (b : ℚ) / (c : ℚ)) := by
  have hcq : (0 : ℚ) < (c : ℚ) := by exact_mod_cast hc
  rcases le_or_lt 0 a with ha | ha
  · have hnn : (0 : ℚ) ≤ (a : ℚ) * (b : ℚ) / (c : ℚ) := by
      apply div_nonneg
      · have ha' : (0 : ℚ) ≤ (a : ℚ) := by exact_mod_cast ha
        have hb' : (0 : ℚ) ≤ (b : ℚ) := by exact_mod_cast hb
        exact mul_nonneg ha' hb'
      · exact hcq.le
    rw [rescaleNear, roundAway, if_neg (not_lt.mpr ha), if_pos hnn]
    rw [ediv_half_eq_floor (a * b) c hc]
    congr 2
    push_cast
    ring
  · rcases eq_or_lt_of_le hb with hb0 | hbpos
    · have hb0' : b = 0 := hb0.symm
      subst hb0'
      have h2 : ((-a) * 0 + c / 2) / c = 0 := by
        have e : (-a) * 0 + c / 2 = c / 2 := by ring
        rw [e]
        apply Int.ediv_eq_zero_of_lt <;> omega
      rw [rescaleNear, if_pos ha, h2, roundAway]
      norm_num
    · have hneg : (a : ℚ) * (b : ℚ) / (c : ℚ) < 0 := by
        apply div_neg_of_neg_of_pos _ hcq
        have ha' : (a : ℚ) < 0 := by exact_mod_cast ha
        have hb' : (0 : ℚ) < (b : ℚ) := by exact_mod_cast hbpos
        exact mul_neg_of_neg_of_pos ha' hb'
      rw [rescaleNear, if_pos ha, roundAway, if_neg (not_le.mpr hneg)]
      rw [ediv_half_eq_floor ((-a) * b) c hc]
      have hceil : ⌈(a : ℚ) * (b : ℚ) / (c : ℚ) - 1 / 2⌉
          = -⌊-((a : ℚ) * (b : ℚ) / (c : ℚ)) + 1 / 2⌋ := by
        rw [show (a : ℚ) * (b : ℚ) / (c : ℚ) - 1 / 2
              = -(-((a : ℚ) * (b : ℚ) / (c : ℚ)) + 1 / 2) by ring]
        rw [Int.ceil_neg]
      rw [hceil]
      congr 3
      push_cast
      ring

theorem av_rescale_q_rnd_characterisation (a : Int) (tbIn tbOut : AVRational)
    (hn : 0 < tbIn.num) (hd : 0 < tbIn.den) (hn' : 0 < tbOut.num) (hd' : 0 < tbOut.den) :
    ((a = INT64_MIN ∨ a = INT64_MAX) → av_rescale_q_rnd a tbIn tbOut true = a) ∧
    (a ≠ INT64_MIN → a ≠ INT64_MAX →
      INT64_MIN ≤ exactRescale a tbIn tbOut → exactRescale a tbIn tbOut ≤ INT64_MAX →
      INT64_MIN ≤ a →
      av_rescale_q_rnd a tbIn tbOut true = exactRescale a tbIn tbOut) := by
  have hb : 0 < tbIn.num * tbOut.den := mul_pos hn hd'
  have hcpos : 0 < tbOut.num * tbIn.den := mul_pos hn' hd
  constructor
  · intro h
    rw [av_rescale_q_rnd, av_rescale_rnd, if_neg (by push_neg; omega)]
    simp [h]
  · intro h1 h2 h3 h4 h5
    rw [av_rescale_q_rnd, av_rescale_rnd, if_neg (by push_neg; omega)]
    rw [if_neg (by simp [h1, h2])]
    have hmax : max a (-INT64_MAX) = a := by
      apply max_eq_left
      simp only [INT64_MAX, INT64_MIN] at h1 h5 ⊢
      omega
    rw [hmax]
    rw [rescaleNear_eq_roundAway a (tbIn.num * tbOut.den) (tbOut.num * tbIn.den) hb.le hcpos]
    have he : roundAway ((a : ℚ) * ((tbIn.num * tbOut.den : ℤ) : ℚ) / ((tbOut.num * tbIn.den : ℤ) : ℚ))
        = exactRescale a tbIn tbOut := by
      rw [exactRescale]
      congr 2
      push_cast
      ring
    rw [he]
    rw [if_neg (by push_neg; exact ⟨h3, h4⟩)]

theorem av_rescale_q_nonneg_characterisation (a : Int) (tbIn tbOut : AVRational)
    (hn : 0 < tbIn.num) (hd : 0 < tbIn.den) (hn' : 0 < tbOut.num) (hd' : 0 < tbOut.den)
    (ha : 0 ≤ a)
    (h3 : INT64_MIN ≤ exactRescale a tbIn tbOut) (h4 : exactRescale a tbIn tbOut ≤ INT64_MAX) :
    av_rescale_q a tbIn tbOut = exactRescale a tbIn tbOut := by
  have hb : 0 < tbIn.num * tbOut.den := mul_pos hn hd'
  have hcpos : 0 < tbOut.num * tbIn.den := mul_pos hn' hd
  rw [av_rescale_q, av_rescale_q_rnd, av_rescale_rnd, if_neg (by push_neg; omega)]
  rw [if_neg (by simp)]
  have hmax : max a (-INT64_MAX) = a := by
    apply max_eq_left
    simp only [INT64_MAX]
    omega
  rw [hmax]
  rw [rescaleNear_eq_roundAway a (tbIn.num * tbOut.den) (tbOut.num * tbIn.den) hb.le hcpos]
  have he : roundAway ((a : ℚ) * ((tbIn.num * tbOut.den : ℤ) : ℚ) / ((tbOut.num * tbIn.den : ℤ) : ℚ))
      = exactRescale a tbIn tbOut := by
    rw [exactRescale]
    congr 2
    push_cast
    ring
  rw [he]
  rw [if_neg (by push_neg; exact ⟨h3, h4⟩)]

theorem find_last_of_eq_none (l : List Char) (p : Char → Bool)
    (h : ∀ c ∈ l, p c = false) : find_last_of l p = none := by
  induction l with
  | nil => rfl
  | cons c rest ih =>
    have h1 : find_last_of rest p = none := ih (fun x hx => h x (List.mem_cons_of_mem _ hx))
    simp [find_last_of, h1, h c (List.mem_cons_self _ _)]

theorem find_last_of_append (l1 l2 : List Char) (p : Char → Bool) :
    find_last_of (l1 ++ l2) p =
      match find_last_of l2 p with
      | some i => some (l1.length + i)
      | none => find_last_of l1 p := by
  induction l1 with
  | nil =>
    cases h : find_last_of l2 p <;> simp [find_last_of, h]
  | cons c rest ih =>
    simp only [List.cons_append, find_last_of, List.append_eq]
    rw [ih]
    cases h2 : find_last_of l2 p with
    | some i =>
      simp only [List.length_cons]
      congr 1
      omega
    | none =>
      cases h1 : find_last_of rest p with
      | some j => simp [find_last_of, h1]
      | none => simp [find_last_of, h1]

/-- C9.  The derived destination path is the input directory, then the input
base name with its extension stripped, then the fixed marker "_converted."
and the requested container extension.  The hypotheses carve the input path
into directory, separator, stem and extension; make_output_path itself is a
pure function of the path and format, so no existing file is consulted. -/
theorem make_output_path_spec
    (dir stem ext outFmt : List Char) (sepc : Char)
    (hsep : isPathSep sepc = true)
    (hstem : ∀ c ∈ stem, isPathSep c = false)
    (hext : ∀ c ∈ ext, isPathSep c = false)
    (hextdot : ∀ c ∈ ext, (c == '.') = false) :
    make_output_path (dir ++ sepc :: (stem ++ '.' :: ext)) outFmt
      = (dir ++ [sepc]) ++ (stem ++ "_converted.".toList ++ outFmt) := by
  have hbase : ∀ c ∈ stem ++ '.' :: ext, isPathSep c = false := by
    intro c hc
    rcases List.mem_append.mp hc with h | h
    · exact hstem c h
    · rcases List.mem_cons.mp h with h | h
      · subst h
        decide
      · exact hext c h
  have hb : find_last_of (stem ++ '.' :: ext) isPathSep = none :=
    find_last_of_eq_none _ _ hbase
  have hsb : find_last_of (sepc :: (stem ++ '.' :: ext)) isPathSep = some 0 := by
    simp [find_last_of, hb, hsep]
  have hfull : find_last_of (dir ++ sepc :: (stem ++ '.' :: ext)) isPathSep
      = some dir.length := by
    rw [find_last_of_append]
    simp [hsb]
  have hdot : find_last_of (stem ++ '.' :: ext) (fun c => c == '.') = some stem.length := by
    rw [find_last_of_append]
    have he : find_last_of ext (fun c => c == '.') = none :=
      find_last_of_eq_none _ _ hextdot
    simp [find_last_of, he]
  have htake : (dir ++ sepc :: (stem ++ '.' :: ext)).take (dir.length + 1) = dir ++ [sepc] := by
    rw [List.take_append_eq_append_take]
    simp
  have hdrop : (dir ++ sepc :: (stem ++ '.' :: ext)).drop (dir.length + 1)
      = stem ++ '.' :: ext := by
    rw [List.drop_append_eq_append_drop]
    simp
  have hstemtake : (stem ++ '.' :: ext).take stem.length = stem := List.take_left _ _
  simp only [make_output_path, hfull, hdot, htake, hdrop, hstemtake]
  simp

theorem make_output_path_spec_witness :
    make_output_path "/tmp/video.mp4".toList "mkv".toList
      = "/tmp/video_converted.mkv".toList := by
  have h := make_output_path_spec "/tmp".toList "video".toList "mp4".toList "mkv".toList '/'
    (by decide) (by decide) (by decide) (by decide)
  calc make_output_path "/tmp/video.mp4".toList "mkv".toList
      = make_output_path ("/tmp".toList ++ '/' :: ("video".toList ++ '.' :: "mp4".toList))
          "mkv".toList := by decide
    _ = ("/tmp".toList ++ ['/']) ++ ("video".toList ++ "_converted.".toList ++ "mkv".toList) := h
    _ = "/tmp/video_converted.mkv".toList := by decide

/-- C4, counterexample to the overflow clamping.  A pts of 2 to the 62nd
rescaled by a factor 4 exceeds INT64_MAX; the code maps it to the error
sentinel INT64_MIN, the opposite end of the representable range, rather
than clamping it to INT64_MAX. -/
theorem copied_packet_rescale_overflow_cex :
    (remuxRewritePacket
        { stream_index := 0, pts := 2 ^ 62, dts := 0, duration := 0, pos := 77, payload := 9 }
        0 { num := 4, den := 1 } { num := 1, den := 1 }).pts = INT64_MIN ∧
    INT64_MIN ≠ INT64_MAX ∧ (INT64_MAX : Int) < 2 ^ 62 * 4 := by
  refine ⟨by decide, by decide, by decide⟩

/-- C4, amended.  Every copied packet has its position invalidated and its
stream index remapped; pts and dts are rescaled to the output time base by
rounding to nearest with ties away from zero, with the sentinel inputs
INT64_MIN and INT64_MAX passed through unchanged; a result that would leave
the representable range becomes the error sentinel INT64_MIN rather than a
clamped bound; the duration is rescaled with the same rounding but without
the sentinel pass-through. -/
theorem copied_packet_rescale_discipline (pkt : AVPacket) (outIndex : Int)
    (tbIn tbOut : AVRational)
    (hn : 0 < tbIn.num) (hd : 0 < tbIn.den) (hn' : 0 < tbOut.num) (hd' : 0 < tbOut.den)
    (hpts : INT64_MIN ≤ pkt.pts) (hdts : INT64_MIN ≤ pkt.dts) :
    (remuxRewritePacket pkt outIndex tbIn tbOut).pos = -1 ∧
    (remuxRewritePacket pkt outIndex tbIn tbOut).stream_index = outIndex ∧
    (remuxRewritePacket pkt outIndex tbIn tbOut).payload = pkt.payload ∧
    ((pkt.pts = INT64_MIN ∨ pkt.pts = INT64_MAX) →
      (remuxRewritePacket pkt outIndex tbIn tbOut).pts = pkt.pts) ∧
    (pkt.pts ≠ INT64_MIN → pkt.pts ≠ INT64_MAX →
      INT64_MIN ≤ exactRescale pkt.pts tbIn tbOut → exactRescale pkt.pts tbIn tbOut ≤ INT64_MAX →
      (remuxRewritePacket pkt outIndex tbIn tbOut).pts = exactRescale pkt.pts tbIn tbOut) ∧
    ((pkt.dts = INT64_MIN ∨ pkt.dts = INT64_MAX) →
      (remuxRewritePacket pkt outIndex tbIn tbOut).dts = pkt.dts) ∧
    (pkt.dts ≠ INT64_MIN → pkt.dts ≠ INT64_MAX →
      INT64_MIN ≤ exactRescale pkt.dts tbIn tbOut → exactRescale pkt.dts tbIn tbOut ≤ INT64_MAX →
      (remuxRewritePacket pkt outIndex tbIn tbOut).dts = exactRescale pkt.dts tbIn tbOut) ∧
    (0 ≤ pkt.duration →
      INT64_MIN ≤ exactRescale pkt.duration tbIn tbOut →
      exactRescale pkt.duration tbIn tbOut ≤ INT64_MAX →
      (remuxRewritePacket pkt outIndex tbIn tbOut).duration
        = exactRescale pkt.duration tbIn tbOut) := by
  have hp := av_rescale_q_rnd_characterisation pkt.pts tbIn tbOut hn hd hn' hd'
  have hdl := av_rescale_q_rnd_characterisation pkt.dts tbIn tbOut hn hd hn' hd'
  refine ⟨rfl, rfl, rfl, ?_, ?_, ?_, ?_, ?_⟩
  · intro h
    exact hp.1 h
  · intro h1 h2 h3 h4
    exact hp.2 h1 h2 h3 h4 hpts
  · intro h
    exact hdl.1 h
  · intro h1 h2 h3 h4
    exact hdl.2 h1 h2 h3 h4 hdts
  · intro h1 h2 h3
    exact av_rescale_q_nonneg_characterisation pkt.duration tbIn tbOut hn hd hn' hd' h1 h2 h3

theorem copied_packet_rescale_discipline_witness :
    (remuxRewritePacket
        { stream_index := 0, pts := 5, dts := 3, duration := 2, pos := 50, payload := 4 }
        2 { num := 1, den := 2 } { num := 1, den := 1 }).pts = 3 ∧
    (remuxRewritePacket
        { stream_index := 0, pts := 5, dts := 3, duration := 2, pos := 50, payload := 4 }
        2 { num := 1, den := 2 } { num := 1, den := 1 }).pos = -1 := by
  have h := copied_packet_rescale_discipline
    { stream_index := 0, pts := 5, dts := 3, duration := 2, pos := 50, payload := 4 }
    2 { num := 1, den := 2 } { num := 1, den := 1 }
    (by norm_num) (by norm_num) (by norm_num) (by norm_num) (by decide) (by decide)
  have hval : exactRescale 5 { num := 1, den := 2 } { num := 1, den := 1 } = 3 := by
    norm_num [exactRescale, roundAway]
  refine ⟨?_, h.1⟩
  have h5 := h.2.2.2.2.1 (by decide) (by decide) (by rw [hval]; decide) (by rw [hval]; decide)
  rw [h5, hval]

theorem countP_zero_of_kinds (l : List Ev) (kind p : Ev → Bool)
    (hmem : ∀ e ∈ l, kind e = true) (hdisj : ∀ e, kind e = true → p e = false) :
    List.countP p l = 0 :=
  List.countP_eq_zero.mpr (fun a ha => by simp [hdisj a (hmem a ha)])

theorem drainEnc_census (env : TransEnv) (enc : List Int) (k : Counters) :
    (drainEnc env enc k).2.1.length
        + List.countP isRecvPkt (drainEnc env enc k).2.2.2 = enc.length ∧
    (∀ e ∈ (drainEnc env enc k).2.2.2, isEncEv e = true) := by
  induction enc generalizing k with
  | nil =>
    rw [drainEnc]
    split
    · simp [isEncEv, isRecvPkt]
    · simp
  | cons p rest ih =>
    rw [drainEnc]
    split
    · simp [isEncEv, isRecvPkt]
    · simp only
      split
      · split
        · have h := ih { { k with nRecvPkt := k.nRecvPkt + 1 } with
            nMux := { k with nRecvPkt := k.nRecvPkt + 1 }.nMux + 1 }
          constructor
          · simp only [List.countP_cons, List.length_cons]
            simp [isRecvPkt] at h ⊢
            omega
          · intro e he
            simp at he
            rcases he with h1 | h1 | h1
            · subst h1
              simp [isEncEv]
            · subst h1
              simp [isEncEv]
            · exact h.2 e h1
        · simp [isEncEv, isRecvPkt, List.countP_cons]
      · simp

theorem procFrame_census (env : TransEnv) (f : Int) (enc : List Int) (k : Counters) :
    (procFrame env f enc k).2.1.length + List.countP isRecvPkt (procFrame env f enc k).2.2.2
        = enc.length + List.countP isSendFrame (procFrame env f enc k).2.2.2 ∧
    (∀ e ∈ (procFrame env f enc k).2.2.2, isProcFrameEv e = true) := by
  rw [procFrame]
  split
  · have h := drainEnc_census env (enc ++ [f]) { k with nSendFrame := k.nSendFrame + 1 }
    have hsf : List.countP isSendFrame (drainEnc env (enc ++ [f])
        { k with nSendFrame := k.nSendFrame + 1 }).2.2.2 = 0 :=
      countP_zero_of_kinds _ isEncEv isSendFrame h.2
        (fun e he => by cases e <;> simp_all [isEncEv, isSendFrame])
    constructor
    · simp only [List.countP_cons]
      simp [isRecvPkt, isSendFrame, hsf] at h ⊢
      omega
    · intro e he
      simp at he
      rcases he with h1 | h1
      · subst h1
        simp [isProcFrameEv]
      · have := h.2 e h1
        cases e <;> simp_all [isEncEv, isProcFrameEv]
  · simp [isProcFrameEv, isEncEv, isRecvPkt, isSendFrame]

set_option maxHeartbeats 800000 in

theorem drainDec_census (env : TransEnv) (duration : Int) (tb : AVRational)
    (dec enc : List Int) (k : Counters) :
    (drainDec env duration tb dec enc k).2.1.length
        + List.countP isRecvFrame (drainDec env duration tb dec enc k).2.2.2.2 = dec.length ∧
    (drainDec env duration tb dec enc k).2.2.1.length
        + List.countP isRecvPkt (drainDec env duration tb dec enc k).2.2.2.2
      = enc.length + List.countP isSendFrame (drainDec env duration tb dec enc k).2.2.2.2 ∧
    (∀ e ∈ (drainDec env duration tb dec enc k).2.2.2.2, isDecEv e = true) := by
  induction dec generalizing enc k with
  | nil =>
    rw [drainDec]
    split
    · simp [isDecEv, isRecvFrame, isRecvPkt, isSendFrame, isProcFrameEv, isEncEv]
    · simp
  | cons f rest ih =>
    rw [drainDec]
    split
    · simp [isDecEv, isRecvFrame, isRecvPkt, isSendFrame, isProcFrameEv, isEncEv]
    · simp only
      split
      · -- frame ready
        rcases hpf : procFrame env f enc { k with nRecvFrame := k.nRecvFrame + 1 }
          with ⟨fl, enc1, k2, evs1⟩
        have hp := procFrame_census env f enc { k with nRecvFrame := k.nRecvFrame + 1 }
        rw [hpf] at hp
        simp only [hpf]
        have hprf : List.countP isRecvFrame evs1 = 0 :=
          countP_zero_of_kinds _ isProcFrameEv isRecvFrame hp.2
            (fun e he => by cases e <;> simp_all [isProcFrameEv, isEncEv, isRecvFrame])
        have hmemP : ∀ e ∈ evs1, isDecEv e = true := by
          intro e he
          have := hp.2 e he
          cases e <;> simp_all [isDecEv, isProcFrameEv, isEncEv]
        cases fl
        case clean =>
          refine ⟨?_, ?_, ?_⟩
          · simp [List.countP_cons, isRecvFrame, hprf]
          · simp only [List.countP_cons]
            simp [isRecvFrame, isRecvPkt, isSendFrame] at hp ⊢
            omega
          · intro e he
            simp at he
            rcases he with h1 | h1
            · subst h1
              simp [isDecEv]
            · exact hmemP e h1
        all_goals {
          simp only
          by_cases hpr : duration > 0 ∧ f ≠ AV_NOPTS_VALUE
          · rw [if_pos hpr]
            split
            · refine ⟨?_, ?_, ?_⟩
              · simp [List.countP_cons, List.countP_append, isRecvFrame, isProgressEv,
                  isPoll, hprf]
              · simp only [List.countP_cons, List.countP_append]
                simp [isRecvFrame, isRecvPkt, isSendFrame, isProgressEv, isPoll] at hp ⊢
                omega
              · intro e he
                simp at he
                rcases he with h1 | h1 | h1 | h1 | h1
                · subst h1
                  simp [isDecEv]
                · exact hmemP e h1
                · subst h1
                  simp [isDecEv]
                · subst h1
                  simp [isDecEv]
                · subst h1
                  simp [isDecEv, isProcFrameEv, isEncEv]
            · rcases hud : drainDec env duration tb rest enc1
                  { k2 with nPoll := k2.nPoll + 1 } with ⟨fl2, dec2, enc2, k3, evs2⟩
              have hu := ih enc1 { k2 with nPoll := k2.nPoll + 1 }
              rw [hud] at hu
              dsimp only at hu
              simp only [hud]
              refine ⟨?_, ?_, ?_⟩
              · simp only [List.countP_cons, List.countP_append]
                simp [isRecvFrame, isProgressEv, isPoll, hprf] at hu ⊢
                omega
              · simp only [List.countP_cons, List.countP_append]
                simp [isRecvFrame, isRecvPkt, isSendFrame, isProgressEv, isPoll] at hp hu ⊢
                omega
              · intro e he
                simp at he
                rcases he with h1 | h1 | h1 | h1 | h1
                · subst h1
                  simp [isDecEv]
                · exact hmemP e h1
                · subst h1
                  simp [isDecEv]
                · subst h1
                  simp [isDecEv]
                · exact hu.2.2 e h1
          · rw [if_neg hpr]
            split
            · refine ⟨?_, ?_, ?_⟩
              · simp [List.countP_cons, List.countP_append, isRecvFrame, isPoll, hprf]
              · simp only [List.countP_cons, List.countP_append]
                simp [isRecvFrame, isRecvPkt, isSendFrame, isPoll] at hp ⊢
                omega
              · intro e he
                simp at he
                rcases he with h1 | h1 | h1 | h1
                · subst h1
                  simp [isDecEv]
                · exact hmemP e h1
                · subst h1
                  simp [isDecEv]
                · subst h1
                  simp [isDecEv, isProcFrameEv, isEncEv]
            · rcases hud : drainDec env duration tb rest enc1
                  { k2 with nPoll := k2.nPoll + 1 } with ⟨fl2, dec2, enc2, k3, evs2⟩
              have hu := ih enc1 { k2 with nPoll := k2.nPoll + 1 }
              rw [hud] at hu
              dsimp only at hu
              simp only [hud]
              refine ⟨?_, ?_, ?_⟩
              · simp only [List.countP_cons, List.countP_append]
                simp [isRecvFrame, isPoll, hprf] at hu ⊢
                omega
              · simp only [List.countP_cons, List.countP_append]
                simp [isRecvFrame, isRecvPkt, isSendFrame, isPoll] at hp hu ⊢
                omega
              · intro e he
                simp at he
                rcases he with h1 | h1 | h1 | h1
                · subst h1
                  simp [isDecEv]
                · exact hmemP e h1
                · subst h1
                  simp [isDecEv]
                · exact hu.2.2 e h1 }
      · simp

set_option maxHeartbeats 800000 in

theorem transLoop_census (env : TransEnv) (streams : List AVStream) (mapping : List Int)
    (vidIdx : Nat) (duration : Int) (pkts : List AVPacket) (dec enc : List Int) (k : Counters) :
    (transLoop env streams mapping vidIdx duration pkts dec enc k).2.1.length
        + List.countP isRecvFrame (transLoop env streams mapping vidIdx duration pkts dec enc k).2.2.2.2
      = dec.length
        + List.countP isSendPkt (transLoop env streams mapping vidIdx duration pkts dec enc k).2.2.2.2 ∧
    (transLoop env streams mapping vidIdx duration pkts dec enc k).2.2.1.length
        + List.countP isRecvPkt (transLoop env streams mapping vidIdx duration pkts dec enc k).2.2.2.2
      = enc.length
        + List.countP isSendFrame (transLoop env streams mapping vidIdx duration pkts dec enc k).2.2.2.2 ∧
    (∀ e ∈ (transLoop env streams mapping vidIdx duration pkts dec enc k).2.2.2.2,
      isTransLoopEv e = true) := by
  induction pkts generalizing dec enc k with
  | nil =>
    rw [transLoop]
    simp
  | cons pkt rest ih =>
    rw [transLoop]
    split
    · -- video packet
      split
      · -- send ok
        rcases hdd : drainDec env duration (streams.getD vidIdx defaultStream).time_base
            (dec ++ [pkt.pts]) enc { k with nSendPkt := k.nSendPkt + 1 }
          with ⟨fl, dec1, enc1, k1, evs1⟩
        have hd := drainDec_census env duration (streams.getD vidIdx defaultStream).time_base
          (dec ++ [pkt.pts]) enc { k with nSendPkt := k.nSendPkt + 1 }
        rw [hdd] at hd
        dsimp only at hd
        have hdsp : List.countP isSendPkt evs1 = 0 :=
          countP_zero_of_kinds _ isDecEv isSendPkt hd.2.2
            (fun e he => by cases e <;> simp_all [isDecEv, isProcFrameEv, isEncEv, isSendPkt])
        have hmemD : ∀ e ∈ evs1, isTransLoopEv e = true := by
          intro e he
          have := hd.2.2 e he
          cases e <;> simp_all [isTransLoopEv, isDecEv, isProcFrameEv, isEncEv]
        simp only [hdd]
        cases fl
        case clean =>
          refine ⟨?_, ?_, ?_⟩
          · simp only [List.countP_cons]
            simp [isRecvFrame, isSendPkt, hdsp] at hd ⊢
            omega
          · simp only [List.countP_cons]
            simp [isRecvPkt, isSendFrame, isSendPkt] at hd ⊢
            omega
          · intro e he
            simp at he
            rcases he with h1 | h1
            · subst h1
              simp [isTransLoopEv]
            · exact hmemD e h1
        all_goals {
          simp only
          rcases htl : transLoop env streams mapping vidIdx duration rest dec1 enc1 k1
            with ⟨j2, dec2, enc2, k2, evs2⟩
          have hu := ih dec1 enc1 k1
          rw [htl] at hu
          dsimp only at hu
          refine ⟨?_, ?_, ?_⟩
          · simp only [List.countP_cons, List.countP_append]
            simp [isRecvFrame, isSendPkt, hdsp] at hd hu ⊢
            omega
          · simp only [List.countP_cons, List.countP_append]
            simp [isRecvPkt, isSendFrame, isSendPkt] at hd hu ⊢
            omega
          · intro e he
            simp at he
            rcases he with h1 | h1 | h1
            · subst h1
              simp [isTransLoopEv]
            · exact hmemD e h1
            · exact hu.2.2 e h1 }
      · -- send failed: break
        refine ⟨?_, ?_, ?_⟩
        · simp [isRecvFrame, isSendPkt]
        · simp [isRecvPkt, isSendFrame]
        · intro e he
          simp at he
          subst he
          simp [isTransLoopEv, isDecEv, isProcFrameEv, isEncEv]
    · -- non-video packet
      simp only
      split
      · -- unmapped: drop
        exact ih dec enc k
      · split
        · -- mux ok
          rcases htl : transLoop env streams mapping vidIdx duration rest dec enc
              { k with nMux := k.nMux + 1 } with ⟨j2, dec2, enc2, k2, evs2⟩
          have hu := ih dec enc { k with nMux := k.nMux + 1 }
          rw [htl] at hu
          dsimp only at hu
          simp only [htl]
          refine ⟨?_, ?_, ?_⟩
          · simp only [List.countP_cons]
            simp [isRecvFrame, isSendPkt, isWritePkt] at hu ⊢
            omega
          · simp only [List.countP_cons]
            simp [isRecvPkt, isSendFrame, isWritePkt] at hu ⊢
            omega
          · intro e he
            simp at he
            rcases he with h1 | h1
            · subst h1
              simp [isTransLoopEv]
            · exact hu.2.2 e h1
        · -- mux failed: cleanup
          refine ⟨?_, ?_, ?_⟩
          · simp [isRecvFrame, isSendPkt]
          · simp [isRecvPkt, isSendFrame]
          · intro e he
            simp at he
            subst he
            simp [isTransLoopEv, isDecEv, isProcFrameEv, isEncEv]

theorem drainEncFlush_census (env : TransEnv) (enc : List Int) (k : Counters) :
    (drainEncFlush env enc k).1.length
        + List.countP isRecvPkt (drainEncFlush env enc k).2.2 = enc.length ∧
    (∀ e ∈ (drainEncFlush env enc k).2.2, isEncEv e = true) := by
  induction enc generalizing k with
  | nil =>
    rw [drainEncFlush]
    split
    · simp [isEncEv, isRecvPkt]
    · simp
  | cons p rest ih =>
    rw [drainEncFlush]
    split
    · simp [isEncEv, isRecvPkt, List.countP_cons]
    · have h := ih { k with nRecvPkt := k.nRecvPkt + 1, nMux := k.nMux + 1 }
      refine ⟨?_, ?_⟩
      · simp only [List.countP_cons, List.length_cons]
        simp [isRecvPkt] at h ⊢
        omega
      · intro e he
        simp at he
        rcases he with h1 | h1 | h1
        · subst h1
          simp [isEncEv]
        · subst h1
          simp [isEncEv]
        · exact h.2 e h1

theorem remuxLoop_census (streams : List AVStream) (mapping : List Int) (env : RemuxEnv)
    (duration : Int) (pkts : List AVPacket) (nMux nPoll : Nat) :
    List.countP isPoll (remuxLoop streams mapping env duration pkts nMux nPoll)
      = List.countP isWritePkt (remuxLoop streams mapping env duration pkts nMux nPoll) ∧
    (∀ e ∈ remuxLoop streams mapping env duration pkts nMux nPoll, isRemuxEv e = true) := by
  induction pkts generalizing nMux nPoll with
  | nil =>
    rw [remuxLoop]
    simp
  | cons pkt rest ih =>
    rw [remuxLoop]
    simp only
    split
    · exact ih nMux nPoll
    · split
      · split
        · -- cancel observed
          split
          · refine ⟨?_, ?_⟩
            · simp [List.countP_cons, List.countP_append, isPoll, isWritePkt, isProgressEv]
            · intro e he
              simp at he
              rcases he with h1 | h1 | h1 | h1 <;> subst h1 <;> simp [isRemuxEv]
          · refine ⟨?_, ?_⟩
            · simp [List.countP_cons, List.countP_append, isPoll, isWritePkt]
            · intro e he
              simp at he
              rcases he with h1 | h1 | h1 <;> subst h1 <;> simp [isRemuxEv]
        · -- continue
          have hu := ih (nMux + 1) (nPoll + 1)
          split
          · refine ⟨?_, ?_⟩
            · simp only [List.countP_cons, List.countP_append]
              simp [isPoll, isWritePkt, isProgressEv]
              omega
            · intro e he
              simp at he
              rcases he with h1 | h1 | h1 | h1
              · subst h1
                simp [isRemuxEv]
              · subst h1
                simp [isRemuxEv]
              · subst h1
                simp [isRemuxEv]
              · exact hu.2 e h1
          · refine ⟨?_, ?_⟩
            · simp only [List.countP_cons, List.countP_append]
              simp [isPoll, isWritePkt]
              omega
            · intro e he
              simp at he
              rcases he with h1 | h1 | h1
              · subst h1
                simp [isRemuxEv]
              · subst h1
                simp [isRemuxEv]
              · exact hu.2 e h1
      · refine ⟨by simp [isPoll, isWritePkt], ?_⟩
        intro e he
        simp at he
        subst he
        simp [isRemuxEv]

theorem clampPct_bounds (x : Int) : 0 ≤ clampPct x ∧ clampPct x ≤ 100 := by
  rw [clampPct]
  split
  · omega
  · split <;> omega

theorem avPct_bounds (pts : Int) (tb : AVRational) (duration : Int) :
    0 ≤ avPct pts tb duration ∧ avPct pts tb duration ≤ 100 :=
  clampPct_bounds _

theorem isBadProgress_avPct (duration : Int) (tb : AVRational) (pts : Int)
    (hd : 0 < duration) : isBadProgress duration (Ev.progress (avPct pts tb duration)) = false := by
  have hb := avPct_bounds pts tb duration
  simp only [isBadProgress, decide_eq_false_iff_not]
  push_neg
  exact ⟨hb.1, hb.2, hd⟩

theorem remuxLoop_no_bad_progress (streams : List AVStream) (mapping : List Int)
    (env : RemuxEnv) (duration : Int) (pkts : List AVPacket) (nMux nPoll : Nat) :
    List.countP (isBadProgress duration)
      (remuxLoop streams mapping env duration pkts nMux nPoll) = 0 := by
  induction pkts generalizing nMux nPoll with
  | nil =>
    rw [remuxLoop]
    simp
  | cons pkt rest ih =>
    rw [remuxLoop]
    simp only
    split
    · exact ih nMux nPoll
    · split
      · -- mux ok; outer split below is the cancel branch, inner the progress guard
        split
        · split
          · rename_i hcond
            have hav := isBadProgress_avPct duration
              (env.outTb (mapping.getD pkt.stream_index.toNat (-1)).toNat)
              (remuxRewritePacket pkt (mapping.getD pkt.stream_index.toNat (-1))
                (streams.getD pkt.stream_index.toNat defaultStream).time_base
                (env.outTb (mapping.getD pkt.stream_index.toNat (-1)).toNat)).pts hcond.1
            simp [List.countP_cons, List.countP_append, isBadProgress, hav]
            all_goals exact ⟨(avPct_bounds _ _ _).1, (avPct_bounds _ _ _).2, hcond.1⟩
          · simp [List.countP_cons, List.countP_append, isBadProgress]
        · split
          · rename_i hcond
            have hav := isBadProgress_avPct duration
              (env.outTb (mapping.getD pkt.stream_index.toNat (-1)).toNat)
              (remuxRewritePacket pkt (mapping.getD pkt.stream_index.toNat (-1))
                (streams.getD pkt.stream_index.toNat defaultStream).time_base
                (env.outTb (mapping.getD pkt.stream_index.toNat (-1)).toNat)).pts hcond.1
            simp [List.countP_cons, List.countP_append, isBadProgress, hav,
              ih (nMux + 1) (nPoll + 1)]
            all_goals exact ⟨(avPct_bounds _ _ _).1, (avPct_bounds _ _ _).2, hcond.1⟩
          · simp [List.countP_cons, List.countP_append, isBadProgress,
              ih (nMux + 1) (nPoll + 1)]
      · simp [isBadProgress]

theorem drainDec_no_bad_progress (env : TransEnv) (duration : Int) (tb : AVRational)
    (dec enc : List Int) (k : Counters) :
    List.countP (isBadProgress duration) (drainDec env duration tb dec enc k).2.2.2.2 = 0 := by
  induction dec generalizing enc k with
  | nil =>
    rw [drainDec]
    split
    · simp [isBadProgress]
    · simp
  | cons f rest ih =>
    rw [drainDec]
    split
    · simp [isBadProgress]
    · simp only
      split
      · rcases hpf : procFrame env f enc { k with nRecvFrame := k.nRecvFrame + 1 }
          with ⟨fl, enc1, k2, evs1⟩
        have hp := procFrame_census env f enc { k with nRecvFrame := k.nRecvFrame + 1 }
        rw [hpf] at hp
        dsimp only at hp
        have hnp : List.countP (isBadProgress duration) evs1 = 0 :=
          countP_zero_of_kinds _ isProcFrameEv (isBadProgress duration) hp.2
            (fun e he => by cases e <;> simp_all [isProcFrameEv, isEncEv, isBadProgress])
        simp only [hpf]
        cases fl
        case clean =>
          simp [List.countP_cons, isBadProgress, hnp]
        all_goals {
          simp only
          split
          · -- cancel observed
            split
            · rename_i hcond
              have hav := isBadProgress_avPct duration tb f hcond.1
              simp [List.countP_cons, List.countP_append, isBadProgress, hav, hnp]
              all_goals exact ⟨(avPct_bounds _ _ _).1, (avPct_bounds _ _ _).2, hcond.1⟩
            · simp [List.countP_cons, List.countP_append, isBadProgress, hnp]
          · rcases hud : drainDec env duration tb rest enc1
                { k2 with nPoll := k2.nPoll + 1 } with ⟨fl2, dec2, enc2, k3, evs2⟩
            have hu := ih enc1 { k2 with nPoll := k2.nPoll + 1 }
            rw [hud] at hu
            dsimp only at hu
            simp only [hud]
            split
            · rename_i hcond
              have hav := isBadProgress_avPct duration tb f hcond.1
              simp [List.countP_cons, List.countP_append, isBadProgress, hav, hnp, hu]
              all_goals exact ⟨(avPct_bounds _ _ _).1, (avPct_bounds _ _ _).2, hcond.1⟩
            · simp [List.countP_cons, List.countP_append, isBadProgress, hnp, hu] }
      · simp

theorem transLoop_no_bad_progress (env : TransEnv) (streams : List AVStream)
    (mapping : List Int) (vidIdx : Nat) (duration : Int) (pkts : List AVPacket)
    (dec enc : List Int) (k : Counters) :
    List.countP (isBadProgress duration)
      (transLoop env streams mapping vidIdx duration pkts dec enc k).2.2.2.2 = 0 := by
  induction pkts generalizing dec enc k with
  | nil =>
    rw [transLoop]
    simp
  | cons pkt rest ih =>
    rw [transLoop]
    split
    · split
      · rcases hdd : drainDec env duration (streams.getD vidIdx defaultStream).time_base
            (dec ++ [pkt.pts]) enc { k with nSendPkt := k.nSendPkt + 1 }
          with ⟨fl, dec1, enc1, k1, evs1⟩
        have hd := drainDec_no_bad_progress env duration
          (streams.getD vidIdx defaultStream).time_base (dec ++ [pkt.pts]) enc
          { k with nSendPkt := k.nSendPkt + 1 }
        rw [hdd] at hd
        dsimp only at hd
        simp only [hdd]
        cases fl
        case clean =>
          simp [List.countP_cons, isBadProgress, hd]
        all_goals {
          simp only
          rcases htl : transLoop env streams mapping vidIdx duration rest dec1 enc1 k1
            with ⟨j2, dec2, enc2, k2, evs2⟩
          have hu := ih dec1 enc1 k1
          rw [htl] at hu
          dsimp only at hu
          simp [List.countP_cons, List.countP_append, isBadProgress, hd, hu] }
      · simp [isBadProgress]
    · simp only
      split
      · exact ih dec enc k
      · split
        · rcases htl : transLoop env streams mapping vidIdx duration rest dec enc
              { k with nMux := k.nMux + 1 } with ⟨j2, dec2, enc2, k2, evs2⟩
          have hu := ih dec enc { k with nMux := k.nMux + 1 }
          rw [htl] at hu
          dsimp only at hu
          simp only [htl]
          simp [List.countP_cons, isBadProgress, hu]
        · simp [isBadProgress]

theorem countP_ite_single (p : Ev → Bool) (c : Prop) [Decidable c] (x : Ev)
    (hx : p x = false) : List.countP p (if c then [x] else []) = 0 := by
  split <;> simp [hx]

theorem drainDec_cancel_poll (env : TransEnv) (duration : Int) (tb : AVRational)
    (dec enc : List Int) (k : Counters) :
    (drainDec env duration tb dec enc k).1 = VFlow.clean ∨
    List.countP isCancelPoll (drainDec env duration tb dec enc k).2.2.2.2 = 0 := by
  induction dec generalizing enc k with
  | nil =>
    rw [drainDec]
    split
    · exact Or.inl rfl
    · exact Or.inr (by simp)
  | cons f rest ih =>
    rw [drainDec]
    split
    · exact Or.inl rfl
    · simp only
      split
      · rcases hpf : procFrame env f enc { k with nRecvFrame := k.nRecvFrame + 1 }
          with ⟨fl, enc1, k2, evs1⟩
        have hp := procFrame_census env f enc { k with nRecvFrame := k.nRecvFrame + 1 }
        rw [hpf] at hp
        dsimp only at hp
        have hnp : List.countP isCancelPoll evs1 = 0 :=
          countP_zero_of_kinds _ isProcFrameEv isCancelPoll hp.2
            (fun e he => by cases e <;> simp_all [isProcFrameEv, isEncEv, isCancelPoll])
        simp only [hpf]
        cases fl
        case clean => exact Or.inl rfl
        all_goals {
          simp only
          split
          · exact Or.inl rfl
          · rcases hud : drainDec env duration tb rest enc1
                { k2 with nPoll := k2.nPoll + 1 } with ⟨fl2, dec2, enc2, k3, evs2⟩
            have hu := ih enc1 { k2 with nPoll := k2.nPoll + 1 }
            rw [hud] at hu
            dsimp only at hu
            simp only [hud]
            rcases hu with hu | hu
            · subst hu
              exact Or.inl rfl
            · refine Or.inr ?_
              simp only [List.countP_cons, List.countP_append]
              rw [countP_ite_single isCancelPoll _ _ (by rfl)]
              simp [isCancelPoll, hnp, hu] }
      · exact Or.inr (by simp)

theorem transLoop_cancel_poll (env : TransEnv) (streams : List AVStream)
    (mapping : List Int) (vidIdx : Nat) (duration : Int) (pkts : List AVPacket)
    (dec enc : List Int) (k : Counters) :
    (transLoop env streams mapping vidIdx duration pkts dec enc k).1 = true ∨
    List.countP isCancelPoll
      (transLoop env streams mapping vidIdx duration pkts dec enc k).2.2.2.2 = 0 := by
  induction pkts generalizing dec enc k with
  | nil =>
    rw [transLoop]
    exact Or.inr (by simp)
  | cons pkt rest ih =>
    rw [transLoop]
    split
    · split
      · rcases hdd : drainDec env duration (streams.getD vidIdx defaultStream).time_base
            (dec ++ [pkt.pts]) enc { k with nSendPkt := k.nSendPkt + 1 }
          with ⟨fl, dec1, enc1, k1, evs1⟩
        have hdc := drainDec_cancel_poll env duration
          (streams.getD vidIdx defaultStream).time_base (dec ++ [pkt.pts]) enc
          { k with nSendPkt := k.nSendPkt + 1 }
        rw [hdd] at hdc
        dsimp only at hdc
        simp only [hdd]
        cases fl
        case clean => exact Or.inl rfl
        all_goals {
          simp only
          rcases htl : transLoop env streams mapping vidIdx duration rest dec1 enc1 k1
            with ⟨j2, dec2, enc2, k2, evs2⟩
          have hu := ih dec1 enc1 k1
          rw [htl] at hu
          dsimp only at hu
          rcases hu with hu | hu
          · subst hu
            exact Or.inl rfl
          · rcases hdc with hdc | hdc
            · exact absurd hdc (by simp)
            · refine Or.inr ?_
              simp [List.countP_cons, List.countP_append, isCancelPoll, hdc, hu] }
      · exact Or.inr (by simp [isCancelPoll])
    · simp only
      split
      · exact ih dec enc k
      · split
        · rcases htl : transLoop env streams mapping vidIdx duration rest dec enc
              { k with nMux := k.nMux + 1 } with ⟨j2, dec2, enc2, k2, evs2⟩
          have hu := ih dec enc { k with nMux := k.nMux + 1 }
          rw [htl] at hu
          dsimp only at hu
          simp only [htl]
          rcases hu with hu | hu
          · subst hu
            exact Or.inl rfl
          · exact Or.inr (by simp [List.countP_cons, isCancelPoll, hu])
        · exact Or.inl rfl

theorem stopAfterCancel_of_no_poll (l : List Ev)
    (h : List.countP isCancelPoll l = 0) : stopAfterCancel l := by
  intro l1 l2 heq
  subst heq
  rw [List.countP_append, List.countP_cons] at h
  simp [isCancelPoll] at h

theorem stopAfterCancel_append_left (a b : List Ev)
    (ha : List.countP isCancelPoll a = 0) (hb : stopAfterCancel b) :
    stopAfterCancel (a ++ b) := by
  intro l1 l2 heq
  rcases List.append_eq_append_iff.mp heq with ⟨a', h1, h2⟩ | ⟨c', h1, h2⟩
  · exact hb a' l2 h2
  · cases c' with
    | nil =>
      simp at h2
      exact hb [] l2 (by simp [h2.symm])
    | cons x c'' =>
      simp only [List.cons_append, List.cons.injEq] at h2
      rcases h2 with ⟨hx, hl2⟩
      rw [h1, ← hx, List.countP_append, List.countP_cons] at ha
      simp [isCancelPoll] at ha

theorem stopAfterCancel_append_right (a b : List Ev)
    (ha : stopAfterCancel a) (hb : List.countP isLoopWork b = 0) :
    stopAfterCancel (a ++ b) := by
  intro l1 l2 heq
  rcases List.append_eq_append_iff.mp heq with ⟨a', h1, h2⟩ | ⟨c', h1, h2⟩
  · -- split inside b: the tail of the poll is a suffix of b
    have : List.countP isLoopWork (a' ++ Ev.poll true :: l2) = 0 := by
      rw [← h2]
      exact hb
    rw [List.countP_append, List.countP_cons] at this
    omega
  · cases c' with
    | nil =>
      simp at h2
      have : List.countP isLoopWork (Ev.poll true :: l2) = 0 := by
        rw [h2.symm] at hb
        exact hb
      rw [List.countP_cons] at this
      omega
    | cons x c'' =>
      simp only [List.cons_append, List.cons.injEq] at h2
      rcases h2 with ⟨hx, hl2⟩
      have hc := ha l1 c'' (by rw [h1, ← hx])
      rw [hl2, List.countP_append]
      omega

theorem stopAfterCancel_cons_poll (b : List Ev)
    (hb : List.countP isLoopWork b = 0) (hb2 : List.countP isCancelPoll b = 0) :
    stopAfterCancel (Ev.poll true :: b) := by
  intro l1 l2 heq
  cases l1 with
  | nil =>
    simp at heq
    rw [← heq]
    exact hb
  | cons x l1' =>
    simp only [List.cons_append, List.cons.injEq] at heq
    rcases heq with ⟨hx, hrest⟩
    rw [hrest, List.countP_append, List.countP_cons] at hb2
    simp [isCancelPoll] at hb2

set_option maxHeartbeats 800000 in

theorem drainDec_stopAfter (env : TransEnv) (duration : Int) (tb : AVRational)
    (dec enc : List Int) (k : Counters) :
    stopAfterCancel (drainDec env duration tb dec enc k).2.2.2.2 := by
  induction dec generalizing enc k with
  | nil =>
    rw [drainDec]
    split
    · exact stopAfterCancel_of_no_poll _ (by simp [isCancelPoll])
    · exact stopAfterCancel_of_no_poll _ (by simp)
  | cons f rest ih =>
    rw [drainDec]
    split
    · exact stopAfterCancel_of_no_poll _ (by simp [isCancelPoll])
    · simp only
      split
      · rcases hpf : procFrame env f enc { k with nRecvFrame := k.nRecvFrame + 1 }
          with ⟨fl, enc1, k2, evs1⟩
        have hp := procFrame_census env f enc { k with nRecvFrame := k.nRecvFrame + 1 }
        rw [hpf] at hp
        dsimp only at hp
        have hnp : List.countP isCancelPoll evs1 = 0 :=
          countP_zero_of_kinds _ isProcFrameEv isCancelPoll hp.2
            (fun e he => by cases e <;> simp_all [isProcFrameEv, isEncEv, isCancelPoll])
        simp only [hpf]
        cases fl
        case clean =>
          apply stopAfterCancel_of_no_poll
          simp [List.countP_cons, isCancelPoll, hnp]
        all_goals {
          simp only
          split
          · -- cancellation observed: poll true then only the log line
            have heq : Ev.recvFrame f :: evs1 ++
                (if duration > 0 ∧ f ≠ AV_NOPTS_VALUE then
                  [Ev.progress (avPct f tb duration)] else []) ++
                [Ev.poll true, Ev.log "Conversion cancelled"]
              = (Ev.recvFrame f :: evs1 ++
                  (if duration > 0 ∧ f ≠ AV_NOPTS_VALUE then
                    [Ev.progress (avPct f tb duration)] else [])) ++
                (Ev.poll true :: [Ev.log "Conversion cancelled"]) := by
              simp
            rw [heq]
            apply stopAfterCancel_append_left
            · simp only [List.countP_cons, List.countP_append]
              rw [countP_ite_single isCancelPoll _ _ (by rfl)]
              simp [isCancelPoll, hnp]
            · apply stopAfterCancel_cons_poll <;> simp [isLoopWork, isCancelPoll]
          · rcases hud : drainDec env duration tb rest enc1
                { k2 with nPoll := k2.nPoll + 1 } with ⟨fl2, dec2, enc2, k3, evs2⟩
            have hu := ih enc1 { k2 with nPoll := k2.nPoll + 1 }
            rw [hud] at hu
            dsimp only at hu
            simp only [hud]
            have heq : Ev.recvFrame f :: evs1 ++
                (if duration > 0 ∧ f ≠ AV_NOPTS_VALUE then
                  [Ev.progress (avPct f tb duration)] else []) ++
                Ev.poll false :: evs2
              = (Ev.recvFrame f :: evs1 ++
                  (if duration > 0 ∧ f ≠ AV_NOPTS_VALUE then
                    [Ev.progress (avPct f tb duration)] else []) ++ [Ev.poll false]) ++
                evs2 := by
              simp
            rw [heq]
            apply stopAfterCancel_append_left
            · simp only [List.countP_cons, List.countP_append]
              rw [countP_ite_single isCancelPoll _ _ (by rfl)]
              simp [isCancelPoll, hnp]
            · exact hu }
      · exact stopAfterCancel_of_no_poll _ (by simp)

set_option maxHeartbeats 800000 in

theorem transLoop_stopAfter (env : TransEnv) (streams : List AVStream)
    (mapping : List Int) (vidIdx : Nat) (duration : Int) (pkts : List AVPacket)
    (dec enc : List Int) (k : Counters) :
    stopAfterCancel (transLoop env streams mapping vidIdx duration pkts dec enc k).2.2.2.2 := by
  induction pkts generalizing dec enc k with
  | nil =>
    rw [transLoop]
    exact stopAfterCancel_of_no_poll _ (by simp)
  | cons pkt rest ih =>
    rw [transLoop]
    split
    · split
      · rcases hdd : drainDec env duration (streams.getD vidIdx defaultStream).time_base
            (dec ++ [pkt.pts]) enc { k with nSendPkt := k.nSendPkt + 1 }
          with ⟨fl, dec1, enc1, k1, evs1⟩
        have hds := drainDec_stopAfter env duration
          (streams.getD vidIdx defaultStream).time_base (dec ++ [pkt.pts]) enc
          { k with nSendPkt := k.nSendPkt + 1 }
        have hdc := drainDec_cancel_poll env duration
          (streams.getD vidIdx defaultStream).time_base (dec ++ [pkt.pts]) enc
          { k with nSendPkt := k.nSendPkt + 1 }
        rw [hdd] at hds hdc
        dsimp only at hds hdc
        simp only [hdd]
        cases fl
        case clean =>
          have heq : Ev.sendPkt pkt.pts :: evs1 = [Ev.sendPkt pkt.pts] ++ evs1 := by simp
          rw [heq]
          exact stopAfterCancel_append_left _ _ (by simp [isCancelPoll]) hds
        all_goals {
          simp only
          rcases htl : transLoop env streams mapping vidIdx duration rest dec1 enc1 k1
            with ⟨j2, dec2, enc2, k2, evs2⟩
          have hu := ih dec1 enc1 k1
          rw [htl] at hu
          dsimp only at hu
          have hc1 : List.countP isCancelPoll evs1 = 0 := by
            rcases hdc with hdc | hdc
            · exact absurd hdc (by simp)
            · exact hdc
          have heq : Ev.sendPkt pkt.pts :: evs1 ++ evs2
              = (Ev.sendPkt pkt.pts :: evs1) ++ evs2 := by simp
          rw [heq]
          apply stopAfterCancel_append_left
          · simp [List.countP_cons, isCancelPoll, hc1]
          · exact hu }
      · exact stopAfterCancel_of_no_poll _ (by simp [isCancelPoll])
    · simp only
      split
      · exact ih dec enc k
      · split
        · rcases htl : transLoop env streams mapping vidIdx duration rest dec enc
              { k with nMux := k.nMux + 1 } with ⟨j2, dec2, enc2, k2, evs2⟩
          have hu := ih dec enc { k with nMux := k.nMux + 1 }
          rw [htl] at hu
          dsimp only at hu
          simp only [htl]
          have heq : Ev.writePkt (remuxRewritePacket pkt
              (mapping.getD pkt.stream_index.toNat (-1))
              (streams.getD pkt.stream_index.toNat defaultStream).time_base
              (env.outTb (mapping.getD pkt.stream_index.toNat (-1)).toNat)) :: evs2
            = [Ev.writePkt (remuxRewritePacket pkt
                (mapping.getD pkt.stream_index.toNat (-1))
                (streams.getD pkt.stream_index.toNat defaultStream).time_base
                (env.outTb (mapping.getD pkt.stream_index.toNat (-1)).toNat))] ++ evs2 := by
            simp
          rw [heq]
          exact stopAfterCancel_append_left _ _ (by simp [isCancelPoll]) hu
        · exact stopAfterCancel_of_no_poll _ (by simp [isCancelPoll])

theorem remuxLoop_stopAfter (streams : List AVStream) (mapping : List Int) (env : RemuxEnv)
    (duration : Int) (pkts : List AVPacket) (nMux nPoll : Nat) :
    stopAfterCancel (remuxLoop streams mapping env duration pkts nMux nPoll) := by
  induction pkts generalizing nMux nPoll with
  | nil =>
    rw [remuxLoop]
    exact stopAfterCancel_of_no_poll _ (by simp)
  | cons pkt rest ih =>
    rw [remuxLoop]
    simp only
    split
    · exact ih nMux nPoll
    · split
      · split
        · -- cancellation observed
          have heq : ∀ (pevs : List Ev) (q : AVPacket),
              Ev.writePkt q :: (pevs ++ [Ev.poll true, Ev.log "Conversion cancelled"])
                = (Ev.writePkt q :: pevs) ++ (Ev.poll true :: [Ev.log "Conversion cancelled"]) := by
            intro pevs q
            simp
          rw [heq]
          apply stopAfterCancel_append_left
          · simp only [List.countP_cons, List.countP_append]
            rw [countP_ite_single isCancelPoll _ _ (by rfl)]
            simp [isCancelPoll]
          · apply stopAfterCancel_cons_poll <;> simp [isLoopWork, isCancelPoll]
        · have hu := ih (nMux + 1) (nPoll + 1)
          have heq : ∀ (pevs : List Ev) (q : AVPacket) (r : List Ev),
              Ev.writePkt q :: (pevs ++ Ev.poll false :: r)
                = (Ev.writePkt q :: pevs ++ [Ev.poll false]) ++ r := by
            intro pevs q r
            simp
          rw [heq]
          apply stopAfterCancel_append_left
          · simp only [List.countP_cons, List.countP_append]
            rw [countP_ite_single isCancelPoll _ _ (by rfl)]
            simp [isCancelPoll]
          · exact hu
      · exact stopAfterCancel_of_no_poll _ (by simp [isCancelPoll])

theorem drainEnc_no_fail (env : TransEnv) (enc : List Int) (k : Counters)
    (h1 : ∀ n, env.recvPktErr n = false) (h2 : ∀ n, env.muxOk n = true) :
    (drainEnc env enc k).1 = VFlow.cont := by
  induction enc generalizing k with
  | nil =>
    rw [drainEnc]
    split
    · rename_i herr
      simp [h1] at herr
    · rfl
  | cons p rest ih =>
    rw [drainEnc]
    split
    · rename_i herr
      simp [h1] at herr
    · simp only
      split
      · split
        · exact ih _
        · rename_i hm
          simp [h2] at hm
      · rfl

theorem procFrame_no_fail (env : TransEnv) (f : Int) (enc : List Int) (k : Counters)
    (h1 : ∀ n, env.recvPktErr n = false) (h2 : ∀ n, env.muxOk n = true)
    (h3 : ∀ n, env.sendFrameOk n = true) :
    (procFrame env f enc k).1 = VFlow.cont := by
  rw [procFrame]
  split
  · exact drainEnc_no_fail env _ _ h1 h2
  · rename_i hs
    simp [h3] at hs

theorem drainDec_no_fail (env : TransEnv) (duration : Int) (tb : AVRational)
    (dec enc : List Int) (k : Counters)
    (hnf : TransEnvNoFail env) (hnc : TransEnvNoCancel env) :
    (drainDec env duration tb dec enc k).1 = VFlow.cont ∧
    (drainDec env duration tb dec enc k).2.1.length ≤ env.decDelay := by
  induction dec generalizing enc k with
  | nil =>
    rw [drainDec]
    split
    · rename_i herr
      simp [hnf.1] at herr
    · simp
  | cons f rest ih =>
    rw [drainDec]
    split
    · rename_i herr
      simp [hnf.1] at herr
    · simp only
      split
      · rcases hpf : procFrame env f enc { k with nRecvFrame := k.nRecvFrame + 1 }
          with ⟨fl, enc1, k2, evs1⟩
        have hfl : fl = VFlow.cont := by
          have := procFrame_no_fail env f enc { k with nRecvFrame := k.nRecvFrame + 1 }
            hnf.2.2.1 hnf.2.2.2 hnf.2.1
          rw [hpf] at this
          exact this
        simp only [hpf]
        cases fl
        case clean => exact absurd hfl (by simp)
        case brk => exact absurd hfl (by simp)
        simp only
        split
        · rename_i hc
          simp [hnc _] at hc
        · exact ih enc1 _
      · rename_i hnr
        refine ⟨rfl, ?_⟩
        simp only [List.length_cons]
        omega

theorem drainEncFlush_no_err (env : TransEnv) (enc : List Int) (k : Counters)
    (h1 : ∀ n, env.recvPktErr n = false) :
    (drainEncFlush env enc k).1 = [] := by
  induction enc generalizing k with
  | nil =>
    rw [drainEncFlush]
    split
    · rename_i herr
      simp [h1] at herr
    · rfl
  | cons p rest ih =>
    rw [drainEncFlush]
    split
    · rename_i herr
      simp [h1] at herr
    · exact ih _

theorem transLoop_no_fail (env : TransEnv) (streams : List AVStream)
    (mapping : List Int) (vidIdx : Nat) (duration : Int) (pkts : List AVPacket)
    (dec enc : List Int) (k : Counters)
    (hnf : TransEnvNoFail env) (hnc : TransEnvNoCancel env) :
    (transLoop env streams mapping vidIdx duration pkts dec enc k).1 = false ∧
    (dec.length ≤ env.decDelay →
      (transLoop env streams mapping vidIdx duration pkts dec enc k).2.1.length
        ≤ env.decDelay) := by
  induction pkts generalizing dec enc k with
  | nil =>
    rw [transLoop]
    exact ⟨rfl, fun h => h⟩
  | cons pkt rest ih =>
    rw [transLoop]
    split
    · split
      · rcases hdd : drainDec env duration (streams.getD vidIdx defaultStream).time_base
            (dec ++ [pkt.pts]) enc { k with nSendPkt := k.nSendPkt + 1 }
          with ⟨fl, dec1, enc1, k1, evs1⟩
        have hd := drainDec_no_fail env duration
          (streams.getD vidIdx defaultStream).time_base (dec ++ [pkt.pts]) enc
          { k with nSendPkt := k.nSendPkt + 1 } hnf hnc
        rw [hdd] at hd
        dsimp only at hd
        have hfl : fl = VFlow.cont := hd.1
        simp only [hdd]
        cases fl
        case clean => exact absurd hfl (by simp)
        case brk => exact absurd hfl (by simp)
        simp only
        rcases htl : transLoop env streams mapping vidIdx duration rest dec1 enc1 k1
          with ⟨j2, dec2, enc2, k2, evs2⟩
        have hu := ih dec1 enc1 k1
        rw [htl] at hu
        dsimp only at hu
        exact ⟨hu.1, fun _ => hu.2 hd.2⟩
      · exact ⟨rfl, fun h => h⟩
    · simp only
      split
      · exact ih dec enc k
      · split
        · rcases htl : transLoop env streams mapping vidIdx duration rest dec enc
              { k with nMux := k.nMux + 1 } with ⟨j2, dec2, enc2, k2, evs2⟩
          have hu := ih dec enc { k with nMux := k.nMux + 1 }
          rw [htl] at hu
          dsimp only at hu
          simp only [htl]
          exact hu
        · rename_i hm
          simp [hnf.2.2.2 _] at hm

theorem drainDec_poll_eq (env : TransEnv) (duration : Int) (tb : AVRational)
    (dec enc : List Int) (k : Counters) (hnf : TransEnvNoFail env) :
    List.countP isPoll (drainDec env duration tb dec enc k).2.2.2.2
      = List.countP isRecvFrame (drainDec env duration tb dec enc k).2.2.2.2 := by
  induction dec generalizing enc k with
  | nil =>
    rw [drainDec]
    split
    · rename_i herr
      simp [hnf.1] at herr
    · simp
  | cons f rest ih =>
    rw [drainDec]
    split
    · rename_i herr
      simp [hnf.1] at herr
    · simp only
      split
      · rcases hpf : procFrame env f enc { k with nRecvFrame := k.nRecvFrame + 1 }
          with ⟨fl, enc1, k2, evs1⟩
        have hfl : fl = VFlow.cont := by
          have := procFrame_no_fail env f enc { k with nRecvFrame := k.nRecvFrame + 1 }
            hnf.2.2.1 hnf.2.2.2 hnf.2.1
          rw [hpf] at this
          exact this
        subst hfl
        have hp := procFrame_census env f enc { k with nRecvFrame := k.nRecvFrame + 1 }
        rw [hpf] at hp
        dsimp only at hp
        have hnpoll : List.countP isPoll evs1 = 0 :=
          countP_zero_of_kinds _ isProcFrameEv isPoll hp.2
            (fun e he => by cases e <;> simp_all [isProcFrameEv, isEncEv, isPoll])
        have hnrf : List.countP isRecvFrame evs1 = 0 :=
          countP_zero_of_kinds _ isProcFrameEv isRecvFrame hp.2
            (fun e he => by cases e <;> simp_all [isProcFrameEv, isEncEv, isRecvFrame])
        simp only [hpf]
        split
        · simp only [List.countP_cons, List.countP_append]
          rw [countP_ite_single isPoll _ _ (by rfl), countP_ite_single isRecvFrame _ _ (by rfl)]
          simp [isPoll, isRecvFrame, isCancelPoll, hnpoll, hnrf]
        · rcases hud : drainDec env duration tb rest enc1
              { k2 with nPoll := k2.nPoll + 1 } with ⟨fl2, dec2, enc2, k3, evs2⟩
          have hu := ih enc1 { k2 with nPoll := k2.nPoll + 1 }
          rw [hud] at hu
          dsimp only at hu
          simp only [hud]
          simp only [List.countP_cons, List.countP_append]
          rw [countP_ite_single isPoll _ _ (by rfl), countP_ite_single isRecvFrame _ _ (by rfl)]
          simp [isPoll, isRecvFrame, hnpoll, hnrf]
          omega
      · rfl

theorem transLoop_poll_eq (env : TransEnv) (streams : List AVStream)
    (mapping : List Int) (vidIdx : Nat) (duration : Int) (pkts : List AVPacket)
    (dec enc : List Int) (k : Counters) (hnf : TransEnvNoFail env) :
    List.countP isPoll (transLoop env streams mapping vidIdx duration pkts dec enc k).2.2.2.2
      = List.countP isRecvFrame
          (transLoop env streams mapping vidIdx duration pkts dec enc k).2.2.2.2 := by
  induction pkts generalizing dec enc k with
  | nil =>
    rw [transLoop]
    rfl
  | cons pkt rest ih =>
    rw [transLoop]
    split
    · split
      · rcases hdd : drainDec env duration (streams.getD vidIdx defaultStream).time_base
            (dec ++ [pkt.pts]) enc { k with nSendPkt := k.nSendPkt + 1 }
          with ⟨fl, dec1, enc1, k1, evs1⟩
        have hpe := drainDec_poll_eq env duration
          (streams.getD vidIdx defaultStream).time_base (dec ++ [pkt.pts]) enc
          { k with nSendPkt := k.nSendPkt + 1 } hnf
        rw [hdd] at hpe
        dsimp only at hpe
        simp only [hdd]
        cases fl
        case clean =>
          simp only [List.countP_cons]
          simp [isPoll, isRecvFrame, hpe]
        all_goals {
          simp only
          rcases htl : transLoop env streams mapping vidIdx duration rest dec1 enc1 k1
            with ⟨j2, dec2, enc2, k2, evs2⟩
          have hu := ih dec1 enc1 k1
          rw [htl] at hu
          dsimp only at hu
          simp only [List.countP_cons, List.countP_append]
          simp [isPoll, isRecvFrame]
          omega }
      · rfl
    · simp only
      split
      · exact ih dec enc k
      · split
        · rcases htl : transLoop env streams mapping vidIdx duration rest dec enc
              { k with nMux := k.nMux + 1 } with ⟨j2, dec2, enc2, k2, evs2⟩
          have hu := ih dec enc { k with nMux := k.nMux + 1 }
          rw [htl] at hu
          dsimp only at hu
          simp only [htl]
          simp only [List.countP_cons]
          simp [isPoll, isRecvFrame, hu]
        · rename_i hm
          simp [hnf.2.2.2 _] at hm

theorem remuxRun_shape (inp : InputFile) (env : RemuxEnv) (outPath : String) :
    ((remuxRun inp env outPath).reachedLoop = false ∧
      (∀ e ∈ (remuxRun inp env outPath).trace, isLoopWork e = false) ∧
      Ev.trailer ∉ (remuxRun inp env outPath).trace) ∨
    ((remuxRun inp env outPath).reachedLoop = true ∧
      (remuxRun inp env outPath).trace
        = remuxStartEvs env ++
          remuxLoop inp.streams (remuxSetupStreams inp.streams 0).2 env inp.duration
            inp.packets 0 0 ++ remuxTailEvs env outPath) := by
  by_cases h1 : env.outCtxOk = true
  · by_cases h2 : env.needsFile = true
    · by_cases h3 : env.avioOk = true
      · by_cases h4 : env.headerOk = true
        · refine Or.inr ⟨?_, ?_⟩
          · simp [remuxRun, h1, h2, h3, h4]
          · simp [remuxRun, h1, h2, h3, h4, remuxStartEvs, remuxTailEvs]
        · refine Or.inl ⟨?_, ?_, ?_⟩
          · simp [remuxRun, h1, h2, h3, h4]
          · intro e he
            simp [remuxRun, h1, h2, h3, h4] at he
            rcases he with h | h | h | h | h <;> subst h <;> rfl
          · simp [remuxRun, h1, h2, h3, h4]
      · refine Or.inl ⟨?_, ?_, ?_⟩
        · simp [remuxRun, h1, h2, h3]
        · intro e he
          simp [remuxRun, h1, h2, h3] at he
          rcases he with h | h | h <;> subst h <;> rfl
        · simp [remuxRun, h1, h2, h3]
    · by_cases h4 : env.headerOk = true
      · refine Or.inr ⟨?_, ?_⟩
        · simp [remuxRun, h1, h2, h4]
        · simp [remuxRun, h1, h2, h4, remuxStartEvs, remuxTailEvs]
      · refine Or.inl ⟨?_, ?_, ?_⟩
        · simp [remuxRun, h1, h2, h4]
        · intro e he
          simp [remuxRun, h1, h2, h4] at he
          rcases he with h | h | h <;> subst h <;> rfl
        · simp [remuxRun, h1, h2, h4]
  · refine Or.inl ⟨?_, ?_, ?_⟩
    · simp [remuxRun, h1]
    · intro e he
      simp [remuxRun, h1] at he
      rcases he with h | h <;> subst h <;> rfl
    · simp [remuxRun, h1]

set_option maxHeartbeats 1600000 in

theorem transcodeRun_shape (inp : InputFile) (env : TransEnv) (outPath : String) :
    ((transcodeRun inp env outPath).reachedLoop = false ∧
      (∀ e ∈ (transcodeRun inp env outPath).trace, isLoopWork e = false) ∧
      Ev.trailer ∉ (transcodeRun inp env outPath).trace ∧
      Ev.flushEnc ∉ (transcodeRun inp env outPath).trace ∧
      (transcodeRun inp env outPath).decLeft = [] ∧
      (transcodeRun inp env outPath).encLeft = [] ∧
      (transcodeRun inp env outPath).jumped = false) ∨
    (∃ vidIdx t,
      findVideoStreamIndex inp.streams = some vidIdx ∧
      t = transLoop env inp.streams (transSetupMapping inp.streams 0) vidIdx inp.duration
        inp.packets [] [] counters0 ∧
      (transcodeRun inp env outPath).reachedLoop = true ∧
      (transcodeRun inp env outPath).jumped = t.1 ∧
      (transcodeRun inp env outPath).decLeft = t.2.1 ∧
      (t.1 = true →
        (transcodeRun inp env outPath).encLeft = t.2.2.1 ∧
        (transcodeRun inp env outPath).trace
          = transStartEvs env ++ t.2.2.2.2 ++ transCleanupEvs env outPath) ∧
      (t.1 = false →
        (transcodeRun inp env outPath).encLeft
          = (drainEncFlush env t.2.2.1 t.2.2.2.1).1 ∧
        (transcodeRun inp env outPath).trace
          = transStartEvs env ++ t.2.2.2.2 ++ Ev.flushEnc ::
              ((drainEncFlush env t.2.2.1 t.2.2.2.1).2.2 ++
                Ev.trailer :: transCleanupEvs env outPath))) := by
  rcases hv : findVideoStreamIndex inp.streams with _ | vidIdx
  · refine Or.inl ⟨?_, ?_, ?_, ?_, ?_, ?_, ?_⟩ <;>
      simp [transcodeRun, hv, isLoopWork]
  · by_cases h1 : env.decoderFound = true
    case neg =>
      refine Or.inl ⟨?_, ?_, ?_, ?_, ?_, ?_, ?_⟩ <;> simp [transcodeRun, hv, h1, isLoopWork]
    by_cases h2 : env.decOpenOk = true
    case neg =>
      refine Or.inl ⟨?_, ?_, ?_, ?_, ?_, ?_, ?_⟩ <;> simp [transcodeRun, hv, h1, h2, isLoopWork]
    by_cases h3 : env.outCtxOk = true
    case neg =>
      refine Or.inl ⟨?_, ?_, ?_, ?_, ?_, ?_, ?_⟩ <;>
        simp [transcodeRun, hv, h1, h2, h3, isLoopWork]
    by_cases h4 : env.encoderFound = true
    case neg =>
      refine Or.inl ⟨?_, ?_, ?_, ?_, ?_, ?_, ?_⟩ <;>
        simp [transcodeRun, hv, h1, h2, h3, h4, isLoopWork]
    by_cases h5 : env.encOpenOk = true
    case neg =>
      refine Or.inl ⟨?_, ?_, ?_, ?_, ?_, ?_, ?_⟩ <;>
        simp [transcodeRun, hv, h1, h2, h3, h4, h5, isLoopWork]
    by_cases h6 : env.needsFile = true
    · by_cases h7 : env.avioOk = true
      case neg =>
        refine Or.inl ⟨?_, ?_, ?_, ?_, ?_, ?_, ?_⟩ <;>
          simp [transcodeRun, hv, h1, h2, h3, h4, h5, h6, h7, isLoopWork]
      by_cases h8 : env.headerOk = true
      case neg =>
        refine Or.inl ⟨?_, ?_, ?_, ?_, ?_, ?_, ?_⟩ <;>
          simp [transcodeRun, hv, h1, h2, h3, h4, h5, h6, h7, h8, isLoopWork]
      · refine Or.inr ⟨vidIdx, _, rfl, rfl, ?_⟩
        rcases ht : transLoop env inp.streams (transSetupMapping inp.streams 0) vidIdx
            inp.duration inp.packets [] [] counters0 with ⟨j, dL, eL, kk, evs⟩
        cases j
        · refine ⟨?_, ?_, ?_, ?_, ?_⟩ <;>
            simp [transcodeRun, hv, h1, h2, h3, h4, h5, h6, h7, h8, ht,
              transStartEvs, transCleanupEvs]
        · refine ⟨?_, ?_, ?_, ?_, ?_⟩ <;>
            simp [transcodeRun, hv, h1, h2, h3, h4, h5, h6, h7, h8, ht,
              transStartEvs, transCleanupEvs]
    · by_cases h8 : env.headerOk = true
      case neg =>
        refine Or.inl ⟨?_, ?_, ?_, ?_, ?_, ?_, ?_⟩ <;>
          simp [transcodeRun, hv, h1, h2, h3, h4, h5, h6, h8, isLoopWork]
      · refine Or.inr ⟨vidIdx, _, rfl, rfl, ?_⟩
        rcases ht : transLoop env inp.streams (transSetupMapping inp.streams 0) vidIdx
            inp.duration inp.packets [] [] counters0 with ⟨j, dL, eL, kk, evs⟩
        cases j
        · refine ⟨?_, ?_, ?_, ?_, ?_⟩ <;>
            simp [transcodeRun, hv, h1, h2, h3, h4, h5, h6, h8, ht,
              transStartEvs, transCleanupEvs]
        · refine ⟨?_, ?_, ?_, ?_, ?_⟩ <;>
            simp [transcodeRun, hv, h1, h2, h3, h4, h5, h6, h8, ht,
              transStartEvs, transCleanupEvs]

theorem countP_zero_of_le (l : List Ev) (p q : Ev → Bool)
    (h : ∀ e, p e = true → q e = true) (hq : List.countP q l = 0) :
    List.countP p l = 0 := by
  have := List.countP_mono_left (l := l) (p := p) (q := q) (fun a _ ha => h a ha)
  omega

theorem transStartEvs_no_work (env : TransEnv) :
    List.countP isLoopWork (transStartEvs env) = 0 := by
  rw [transStartEvs]
  by_cases hf : env.needsFile = true <;> simp [hf, isLoopWork]

theorem transCleanupEvs_no_work (env : TransEnv) (outPath : String) :
    List.countP isLoopWork (transCleanupEvs env outPath) = 0 := by
  rw [transCleanupEvs]
  by_cases hf : env.needsFile = true <;> simp [hf, isLoopWork]

theorem remuxStartEvs_no_work (env : RemuxEnv) :
    List.countP isLoopWork (remuxStartEvs env) = 0 := by
  rw [remuxStartEvs]
  by_cases hf : env.needsFile = true <;> simp [hf, isLoopWork]

theorem remuxTailEvs_no_work (env : RemuxEnv) (outPath : String) :
    List.countP isLoopWork (remuxTailEvs env outPath) = 0 := by
  rw [remuxTailEvs]
  by_cases hf : env.needsFile = true <;> simp [hf, isLoopWork]

theorem isLoopWork_of_isPoll (e : Ev) (h : isPoll e = true) : isLoopWork e = true := by
  cases e <;> simp_all [isPoll, isLoopWork]

theorem isLoopWork_of_isCancelPoll (e : Ev) (h : isCancelPoll e = true) :
    isLoopWork e = true := by
  cases e <;> simp_all [isCancelPoll, isLoopWork]

theorem isLoopWork_of_isWritePkt (e : Ev) (h : isWritePkt e = true) : isLoopWork e = true := by
  cases e <;> simp_all [isWritePkt, isLoopWork]

theorem isLoopWork_of_isSendPkt (e : Ev) (h : isSendPkt e = true) : isLoopWork e = true := by
  cases e <;> simp_all [isSendPkt, isLoopWork]

theorem isLoopWork_of_isRecvFrame (e : Ev) (h : isRecvFrame e = true) : isLoopWork e = true := by
  cases e <;> simp_all [isRecvFrame, isLoopWork]

theorem isLoopWork_of_isSendFrame (e : Ev) (h : isSendFrame e = true) : isLoopWork e = true := by
  cases e <;> simp_all [isSendFrame, isLoopWork]

theorem isLoopWork_of_isRecvPkt (e : Ev) (h : isRecvPkt e = true) : isLoopWork e = true := by
  cases e <;> simp_all [isRecvPkt, isLoopWork]

theorem isLoopWork_of_isProgressEv (e : Ev) (h : isProgressEv e = true) :
    isLoopWork e = true := by
  cases e <;> simp_all [isProgressEv, isLoopWork]

theorem drainEncFlush_no_sendFrame (env : TransEnv) (enc : List Int) (k : Counters) :
    List.countP isSendFrame (drainEncFlush env enc k).2.2 = 0 ∧
    List.countP isRecvFrame (drainEncFlush env enc k).2.2 = 0 ∧
    List.countP isSendPkt (drainEncFlush env enc k).2.2 = 0 := by
  have h := drainEncFlush_census env enc k
  refine ⟨?_, ?_, ?_⟩ <;>
    exact countP_zero_of_kinds _ isEncEv _ h.2
      (fun e he => by cases e <;> simp_all [isEncEv, isSendFrame, isRecvFrame, isSendPkt])

/-- Claim C2, amended.  Frame draining in the transcode loop is conservative:
across a whole run the received frames plus the frames still held by the
decoder equal the packets sent, the received encoded packets plus the packets
still held by the encoder equal the frames sent, drains never exceed submits,
and on a failure-free, cancellation-free run the encoder ends empty while the
decoder may retain up to its latency in frames, because the decoder is never
flushed at end of stream. -/
theorem transcode_drain_accounting (inp : InputFile) (env : TransEnv) (outPath : String) :
    List.countP isRecvFrame (transcodeRun inp env outPath).trace
        + (transcodeRun inp env outPath).decLeft.length
      = List.countP isSendPkt (transcodeRun inp env outPath).trace ∧
    List.countP isRecvPkt (transcodeRun inp env outPath).trace
        + (transcodeRun inp env outPath).encLeft.length
      = List.countP isSendFrame (transcodeRun inp env outPath).trace ∧
    List.countP isRecvFrame (transcodeRun inp env outPath).trace
      ≤ List.countP isSendPkt (transcodeRun inp env outPath).trace ∧
    (TransEnvNoFail env → TransEnvNoCancel env →
      (transcodeRun inp env outPath).decLeft.length ≤ env.decDelay ∧
      (transcodeRun inp env outPath).encLeft = []) := by
  rcases transcodeRun_shape inp env outPath
    with ⟨hr, hw, _, _, hdl, hel, _⟩ | ⟨vid, t, hv, htdef, hr, hj, hdL, hjt, hjf⟩
  · have hz : ∀ (p : Ev → Bool), (∀ e, p e = true → isLoopWork e = true) →
        List.countP p (transcodeRun inp env outPath).trace = 0 := by
      intro p hp
      refine List.countP_eq_zero.mpr (fun a ha => ?_)
      intro hc
      have h1 := hw a ha
      rw [hp a hc] at h1
      cases h1
    rw [hdl, hel]
    rw [hz isRecvFrame isLoopWork_of_isRecvFrame, hz isSendPkt isLoopWork_of_isSendPkt,
      hz isRecvPkt isLoopWork_of_isRecvPkt, hz isSendFrame isLoopWork_of_isSendFrame]
    exact ⟨rfl, rfl, le_refl _, fun _ _ => ⟨Nat.zero_le _, rfl⟩⟩
  · rcases ht : t with ⟨j, dL, eL, kk, evs⟩
    have hcen := transLoop_census env inp.streams (transSetupMapping inp.streams 0) vid
      inp.duration inp.packets [] [] counters0
    rw [← htdef, ht] at hcen
    dsimp only at hcen
    have hsz := transStartEvs_no_work env
    have hcz := transCleanupEvs_no_work env outPath
    cases j
    · -- not jumped: flush and trailer ran
      obtain ⟨henc, htr⟩ := hjf (by rw [ht])
      rcases hfe : drainEncFlush env eL kk with ⟨left, kk2, fevs⟩
      have hfc := drainEncFlush_census env eL kk
      have hfz := drainEncFlush_no_sendFrame env eL kk
      rw [hfe] at hfc hfz
      dsimp only at hfc hfz
      rw [ht] at htr henc
      dsimp only at htr henc
      rw [hfe] at htr henc
      dsimp only at htr henc
      rw [htr, hdL, henc, ht]
      dsimp only
      simp only [List.countP_append, List.countP_cons]
      have e1 : List.countP isRecvFrame (transStartEvs env) = 0 :=
        countP_zero_of_le _ _ _ isLoopWork_of_isRecvFrame hsz
      have e2 : List.countP isSendPkt (transStartEvs env) = 0 :=
        countP_zero_of_le _ _ _ isLoopWork_of_isSendPkt hsz
      have e3 : List.countP isRecvPkt (transStartEvs env) = 0 :=
        countP_zero_of_le _ _ _ isLoopWork_of_isRecvPkt hsz
      have e4 : List.countP isSendFrame (transStartEvs env) = 0 :=
        countP_zero_of_le _ _ _ isLoopWork_of_isSendFrame hsz
      have c1 : List.countP isRecvFrame (transCleanupEvs env outPath) = 0 :=
        countP_zero_of_le _ _ _ isLoopWork_of_isRecvFrame hcz
      have c2 : List.countP isSendPkt (transCleanupEvs env outPath) = 0 :=
        countP_zero_of_le _ _ _ isLoopWork_of_isSendPkt hcz
      have c3 : List.countP isRecvPkt (transCleanupEvs env outPath) = 0 :=
        countP_zero_of_le _ _ _ isLoopWork_of_isRecvPkt hcz
      have c4 : List.countP isSendFrame (transCleanupEvs env outPath) = 0 :=
        countP_zero_of_le _ _ _ isLoopWork_of_isSendFrame hcz
      simp only [e1, e2, e3, e4, c1, c2, c3, c4, isRecvFrame, isSendPkt, isRecvPkt,
        isSendFrame]
      simp only [List.length_nil] at hcen
      refine ⟨by simp; omega, by simp; omega, by simp; omega, ?_⟩
      intro hnf hnc
      have hnfl := transLoop_no_fail env inp.streams (transSetupMapping inp.streams 0) vid
        inp.duration inp.packets [] [] counters0 hnf hnc
      rw [← htdef, ht] at hnfl
      dsimp only at hnfl
      have hleft : (drainEncFlush env eL kk).1 = [] :=
        drainEncFlush_no_err env eL kk hnf.2.2.1
      rw [hfe] at hleft
      dsimp only at hleft
      exact ⟨hnfl.2 (by simp), by rw [hleft]⟩
    · -- jumped
      obtain ⟨henc, htr⟩ := hjt (by rw [ht])
      rw [ht] at htr henc
      dsimp only at htr henc
      rw [htr, hdL, henc, ht]
      dsimp only
      simp only [List.countP_append]
      have e1 : List.countP isRecvFrame (transStartEvs env) = 0 :=
        countP_zero_of_le _ _ _ isLoopWork_of_isRecvFrame hsz
      have e2 : List.countP isSendPkt (transStartEvs env) = 0 :=
        countP_zero_of_le _ _ _ isLoopWork_of_isSendPkt hsz
      have e3 : List.countP isRecvPkt (transStartEvs env) = 0 :=
        countP_zero_of_le _ _ _ isLoopWork_of_isRecvPkt hsz
      have e4 : List.countP isSendFrame (transStartEvs env) = 0 :=
        countP_zero_of_le _ _ _ isLoopWork_of_isSendFrame hsz
      have c1 : List.countP isRecvFrame (transCleanupEvs env outPath) = 0 :=
        countP_zero_of_le _ _ _ isLoopWork_of_isRecvFrame hcz
      have c2 : List.countP isSendPkt (transCleanupEvs env outPath) = 0 :=
        countP_zero_of_le _ _ _ isLoopWork_of_isSendPkt hcz
      have c3 : List.countP isRecvPkt (transCleanupEvs env outPath) = 0 :=
        countP_zero_of_le _ _ _ isLoopWork_of_isRecvPkt hcz
      have c4 : List.countP isSendFrame (transCleanupEvs env outPath) = 0 :=
        countP_zero_of_le _ _ _ isLoopWork_of_isSendFrame hcz
      simp only [e1, e2, e3, e4, c1, c2, c3, c4]
      simp only [List.length_nil] at hcen
      refine ⟨by omega, by omega, by omega, ?_⟩
      intro hnf hnc
      have hnfl := transLoop_no_fail env inp.streams (transSetupMapping inp.streams 0) vid
        inp.duration inp.packets [] [] counters0 hnf hnc
      rw [← htdef, ht] at hnfl
      dsimp only at hnfl
      exact absurd hnfl.1 (by simp)

/-- Claim C1, amended.  When the transcode loop exhausts its input without
cancelling and the encoder drain reports no error, the end-of-stream protocol
flushes the encoder, then writes the trailer, then closes the output handle,
and leaves the encoder empty; the decoder is not flushed (see the
counterexample). -/
theorem transcode_eof_flushes_encoder_then_trailer (inp : InputFile) (env : TransEnv)
    (outPath : String)
    (hreach : (transcodeRun inp env outPath).reachedLoop = true)
    (hnj : (transcodeRun inp env outPath).jumped = false)
    (hfl : ∀ n, env.recvPktErr n = false) :
    Ev.flushEnc ∈ (transcodeRun inp env outPath).trace ∧
    seqIn (transcodeRun inp env outPath).trace Ev.flushEnc Ev.trailer ∧
    (env.needsFile = true → seqIn (transcodeRun inp env outPath).trace Ev.trailer Ev.closeOut) ∧
    (transcodeRun inp env outPath).encLeft = [] := by
  rcases transcodeRun_shape inp env outPath
    with ⟨hr, _⟩ | ⟨vid, t, hv, htdef, hr, hj, hdL, hjt, hjf⟩
  · rw [hr] at hreach
    cases hreach
  · have ht1 : t.1 = false := by
      rw [hj] at hnj
      exact hnj
    obtain ⟨henc, htr⟩ := hjf ht1
    have hleft : (drainEncFlush env t.2.2.1 t.2.2.2.1).1 = [] :=
      drainEncFlush_no_err env _ _ hfl
    refine ⟨?_, ?_, ?_, ?_⟩
    · rw [htr]
      simp
    · exact ⟨transStartEvs env ++ t.2.2.2.2, (drainEncFlush env t.2.2.1 t.2.2.2.1).2.2,
        transCleanupEvs env outPath, by rw [htr]; try simp⟩
    · intro hf
      refine ⟨transStartEvs env ++ t.2.2.2.2 ++ Ev.flushEnc ::
        (drainEncFlush env t.2.2.1 t.2.2.2.1).2.2, [],
        [Ev.running false, Ev.log ("Conversion finished. Output: " ++ outPath)], ?_⟩
      rw [htr, transCleanupEvs, if_pos hf]
      simp
    · rw [henc, hleft]

/-- Claim C10.  Every transcode exit that reaches the common cleanup block,
normal completion, loop error or cancellation alike, ends the trace with the
output close (when a file was opened), then the running-flag reset, then the
terminal log line naming the output path, in that order. -/
theorem transcode_cleanup_terminal_events (inp : InputFile) (env : TransEnv)
    (outPath : String)
    (hreach : (transcodeRun inp env outPath).reachedLoop = true) :
    ∃ pre, (transcodeRun inp env outPath).trace
      = pre ++ (if env.needsFile then [Ev.closeOut] else []) ++
          [Ev.running false, Ev.log ("Conversion finished. Output: " ++ outPath)] := by
  rcases transcodeRun_shape inp env outPath
    with ⟨hr, _⟩ | ⟨vid, t, hv, htdef, hr, hj, hdL, hjt, hjf⟩
  · rw [hr] at hreach
    cases hreach
  · cases hj1 : t.1
    · obtain ⟨henc, htr⟩ := hjf hj1
      refine ⟨transStartEvs env ++ t.2.2.2.2 ++ Ev.flushEnc ::
        ((drainEncFlush env t.2.2.1 t.2.2.2.1).2.2 ++ [Ev.trailer]), ?_⟩
      rw [htr, transCleanupEvs]
      simp
    · obtain ⟨henc, htr⟩ := hjt hj1
      refine ⟨transStartEvs env ++ t.2.2.2.2, ?_⟩
      rw [htr, transCleanupEvs]
      simp

/-- Claim C3.  Cancellation asymmetry: a cancellation observed in the remux
loop still leads to the trailer write and then the output close, while a
cancellation observed in the transcode loop jumps to cleanup, so the trace
contains neither a trailer write nor an encoder flush. -/
theorem cancel_finalisation_asymmetry (inp1 : InputFile) (env1 : RemuxEnv) (p1 : String)
    (inp2 : InputFile) (env2 : TransEnv) (p2 : String) :
    (Ev.poll true ∈ (remuxRun inp1 env1 p1).trace →
      Ev.trailer ∈ (remuxRun inp1 env1 p1).trace ∧
      seqIn (remuxRun inp1 env1 p1).trace (Ev.poll true) Ev.trailer ∧
      (env1.needsFile = true →
        seqIn (remuxRun inp1 env1 p1).trace Ev.trailer Ev.closeOut)) ∧
    (Ev.poll true ∈ (transcodeRun inp2 env2 p2).trace →
      Ev.trailer ∉ (transcodeRun inp2 env2 p2).trace ∧
      Ev.flushEnc ∉ (transcodeRun inp2 env2 p2).trace) := by
  constructor
  · intro hp
    rcases remuxRun_shape inp1 env1 p1 with ⟨hr, hw, _⟩ | ⟨hr, htr⟩
    · have := hw _ hp
      simp [isLoopWork] at this
    · rw [htr] at hp ⊢
      have hploop : Ev.poll true ∈ remuxLoop inp1.streams (remuxSetupStreams inp1.streams 0).2
          env1 inp1.duration inp1.packets 0 0 := by
        simp at hp
        rcases hp with h | h | h
        · rw [remuxStartEvs] at h
          by_cases hf : env1.needsFile = true <;> simp [hf] at h
        · exact h
        · rw [remuxTailEvs] at h
          by_cases hf : env1.needsFile = true <;> simp [hf] at h
      refine ⟨by simp [remuxTailEvs], ?_, ?_⟩
      · obtain ⟨s1, s2, hsplit⟩ := List.append_of_mem hploop
        refine ⟨remuxStartEvs env1 ++ s1, s2, (if env1.needsFile then [Ev.closeOut] else []) ++
          [Ev.log ("Remux finished. Output: " ++ p1), Ev.running false], ?_⟩
        rw [hsplit, remuxTailEvs]
        simp
      · intro hf
        refine ⟨remuxStartEvs env1 ++ remuxLoop inp1.streams (remuxSetupStreams inp1.streams 0).2
          env1 inp1.duration inp1.packets 0 0, [],
          [Ev.log ("Remux finished. Output: " ++ p1), Ev.running false], ?_⟩
        rw [remuxTailEvs, if_pos hf]
        simp
  · intro hp
    rcases transcodeRun_shape inp2 env2 p2
      with ⟨hr, hw, htr, hfe, _⟩ | ⟨vid, t, hv, htdef, hr, hj, hdL, hjt, hjf⟩
    · have := hw _ hp
      simp [isLoopWork] at this
    · cases hj1 : t.1
      · -- not jumped: show no cancellation poll can be in the trace
        obtain ⟨henc, htr⟩ := hjf hj1
        have hcl : List.countP isCancelPoll t.2.2.2.2 = 0 := by
          rcases transLoop_cancel_poll env2 inp2.streams (transSetupMapping inp2.streams 0)
            vid inp2.duration inp2.packets [] [] counters0 with h | h
          · rw [← htdef] at h
            rw [h] at hj1
            cases hj1
          · rw [← htdef] at h
            exact h
        have hmem : Ev.poll true ∈ t.2.2.2.2 := by
          rw [htr] at hp
          simp at hp
          rcases hp with h | h | h | h
          · rw [transStartEvs] at h
            by_cases hf : env2.needsFile = true <;> simp [hf] at h
          · exact h
          · have hfc := drainEncFlush_census env2 t.2.2.1 t.2.2.2.1
            have := hfc.2 _ h
            simp [isEncEv] at this
          · rw [transCleanupEvs] at h
            by_cases hf : env2.needsFile = true <;> simp [hf] at h
        have : 0 < List.countP isCancelPoll t.2.2.2.2 :=
          List.countP_pos_iff.mpr ⟨_, hmem, by simp [isCancelPoll]⟩
        omega
      · obtain ⟨henc, htr⟩ := hjt hj1
        rw [htr]
        constructor
        · intro hmem
          simp at hmem
          rcases hmem with h | h | h
          · rw [transStartEvs] at h
            by_cases hf : env2.needsFile = true <;> simp [hf] at h
          · have hcen := transLoop_census env2 inp2.streams (transSetupMapping inp2.streams 0)
              vid inp2.duration inp2.packets [] [] counters0
            rw [← htdef] at hcen
            have := hcen.2.2 _ h
            simp [isTransLoopEv, isDecEv, isProcFrameEv, isEncEv] at this
          · rw [transCleanupEvs] at h
            by_cases hf : env2.needsFile = true <;> simp [hf] at h
        · intro hmem
          simp at hmem
          rcases hmem with h | h | h
          · rw [transStartEvs] at h
            by_cases hf : env2.needsFile = true <;> simp [hf] at h
          · have hcen := transLoop_census env2 inp2.streams (transSetupMapping inp2.streams 0)
              vid inp2.duration inp2.packets [] [] counters0
            rw [← htdef] at hcen
            have := hcen.2.2 _ h
            simp [isTransLoopEv, isDecEv, isProcFrameEv, isEncEv] at this
          · rw [transCleanupEvs] at h
            by_cases hf : env2.needsFile = true <;> simp [hf] at h

/-- Claim C7, amended.  Every progress value emitted by either path lies in
the interval from 0 to 100 and is only emitted when the container duration is
known to be positive; monotonicity does not hold (see the counterexample). -/
theorem progress_bounded_and_gated (inp1 : InputFile) (env1 : RemuxEnv) (p1 : String)
    (inp2 : InputFile) (env2 : TransEnv) (p2 : String) :
    (∀ q, Ev.progress q ∈ (remuxRun inp1 env1 p1).trace →
      0 ≤ q ∧ q ≤ 100 ∧ 0 < inp1.duration) ∧
    (∀ q, Ev.progress q ∈ (transcodeRun inp2 env2 p2).trace →
      0 ≤ q ∧ q ≤ 100 ∧ 0 < inp2.duration) := by
  constructor
  · intro q hq
    rcases remuxRun_shape inp1 env1 p1 with ⟨hr, hw, _⟩ | ⟨hr, htr⟩
    · have := hw _ hq
      simp [isLoopWork] at this
    · rw [htr] at hq
      simp at hq
      have hqloop : Ev.progress q ∈ remuxLoop inp1.streams (remuxSetupStreams inp1.streams 0).2
          env1 inp1.duration inp1.packets 0 0 := by
        rcases hq with h | h | h
        · exfalso
          have hz := remuxStartEvs_no_work env1
          have : 0 < List.countP isLoopWork (remuxStartEvs env1) :=
            List.countP_pos_iff.mpr ⟨_, h, by simp [isLoopWork]⟩
          omega
        · exact h
        · exfalso
          have hz := remuxTailEvs_no_work env1 p1
          have : 0 < List.countP isLoopWork (remuxTailEvs env1 p1) :=
            List.countP_pos_iff.mpr ⟨_, h, by simp [isLoopWork]⟩
          omega
      have hnb := remuxLoop_no_bad_progress inp1.streams (remuxSetupStreams inp1.streams 0).2
        env1 inp1.duration inp1.packets 0 0
      have hnbe := List.countP_eq_zero.mp hnb _ hqloop
      simp [isBadProgress] at hnbe
      omega
  · intro q hq
    rcases transcodeRun_shape inp2 env2 p2
      with ⟨hr, hw, _⟩ | ⟨vid, t, hv, htdef, hr, hj, hdL, hjt, hjf⟩
    · have := hw _ hq
      simp [isLoopWork] at this
    · have hnb := transLoop_no_bad_progress env2 inp2.streams (transSetupMapping inp2.streams 0)
        vid inp2.duration inp2.packets [] [] counters0
      rw [← htdef] at hnb
      have hmem : Ev.progress q ∈ t.2.2.2.2 := by
        cases hj1 : t.1
        · obtain ⟨henc, htr⟩ := hjf hj1
          rw [htr] at hq
          simp at hq
          rcases hq with h | h | h | h
          · exfalso
            have hz := transStartEvs_no_work env2
            have : 0 < List.countP isLoopWork (transStartEvs env2) :=
              List.countP_pos_iff.mpr ⟨_, h, by simp [isLoopWork]⟩
            omega
          · exact h
          · exfalso
            have hfc := drainEncFlush_census env2 t.2.2.1 t.2.2.2.1
            have := hfc.2 _ h
            simp [isEncEv] at this
          · exfalso
            have hz := transCleanupEvs_no_work env2 p2
            have : 0 < List.countP isLoopWork (transCleanupEvs env2 p2) :=
              List.countP_pos_iff.mpr ⟨_, h, by simp [isLoopWork]⟩
            omega
        · obtain ⟨henc, htr⟩ := hjt hj1
          rw [htr] at hq
          simp at hq
          rcases hq with h | h | h
          · exfalso
            have hz := transStartEvs_no_work env2
            have : 0 < List.countP isLoopWork (transStartEvs env2) :=
              List.countP_pos_iff.mpr ⟨_, h, by simp [isLoopWork]⟩
            omega
          · exact h
          · exfalso
            have hz := transCleanupEvs_no_work env2 p2
            have : 0 < List.countP isLoopWork (transCleanupEvs env2 p2) :=
              List.countP_pos_iff.mpr ⟨_, h, by simp [isLoopWork]⟩
            omega
      have hnbe := List.countP_eq_zero.mp hnb _ hmem
      simp [isBadProgress] at hnbe
      omega

/-- Claim C8, amended.  The remux loop polls cancellation exactly once per
written packet and the transcode loop polls exactly once per received frame,
not once per packet (see the counterexample); in both paths, once a poll
observes the cancellation signal, no further loop work appears in the
trace. -/
theorem poll_discipline (inp1 : InputFile) (env1 : RemuxEnv) (p1 : String)
    (inp2 : InputFile) (env2 : TransEnv) (p2 : String) (hnf : TransEnvNoFail env2) :
    List.countP isPoll (remuxRun inp1 env1 p1).trace
      = List.countP isWritePkt (remuxRun inp1 env1 p1).trace ∧
    (∀ l1 l2, (remuxRun inp1 env1 p1).trace = l1 ++ Ev.poll true :: l2 →
      List.countP isLoopWork l2 = 0) ∧
    List.countP isPoll (transcodeRun inp2 env2 p2).trace
      = List.countP isRecvFrame (transcodeRun inp2 env2 p2).trace ∧
    (∀ l1 l2, (transcodeRun inp2 env2 p2).trace = l1 ++ Ev.poll true :: l2 →
      List.countP isLoopWork l2 = 0) := by
  refine ⟨?_, ?_, ?_, ?_⟩
  · rcases remuxRun_shape inp1 env1 p1 with ⟨hr, hw, _⟩ | ⟨hr, htr⟩
    · have hz : ∀ (p : Ev → Bool), (∀ e, p e = true → isLoopWork e = true) →
          List.countP p (remuxRun inp1 env1 p1).trace = 0 := by
        intro p hp
        refine List.countP_eq_zero.mpr (fun a ha => ?_)
        intro hc
        have h1 := hw a ha
        rw [hp a hc] at h1
        cases h1
      rw [hz isPoll isLoopWork_of_isPoll, hz isWritePkt isLoopWork_of_isWritePkt]
    · rw [htr]
      simp only [List.countP_append]
      have h1 := remuxStartEvs_no_work env1
      have h2 := remuxTailEvs_no_work env1 p1
      have g1 := countP_zero_of_le _ _ _ isLoopWork_of_isPoll h1
      have g2 := countP_zero_of_le _ _ _ isLoopWork_of_isWritePkt h1
      have g3 := countP_zero_of_le _ _ _ isLoopWork_of_isPoll h2
      have g4 := countP_zero_of_le _ _ _ isLoopWork_of_isWritePkt h2
      have hc := remuxLoop_census inp1.streams (remuxSetupStreams inp1.streams 0).2 env1
        inp1.duration inp1.packets 0 0
      omega
  · rcases remuxRun_shape inp1 env1 p1 with ⟨hr, hw, _⟩ | ⟨hr, htr⟩
    · have hz : List.countP isCancelPoll (remuxRun inp1 env1 p1).trace = 0 := by
        refine List.countP_eq_zero.mpr (fun a ha => ?_)
        intro hc
        have h1 := hw a ha
        rw [isLoopWork_of_isCancelPoll a hc] at h1
        cases h1
      exact stopAfterCancel_of_no_poll _ hz
    · rw [htr, List.append_assoc]
      apply stopAfterCancel_append_left
      · exact countP_zero_of_le _ _ _ isLoopWork_of_isCancelPoll (remuxStartEvs_no_work env1)
      · apply stopAfterCancel_append_right
        · exact remuxLoop_stopAfter inp1.streams (remuxSetupStreams inp1.streams 0).2 env1
            inp1.duration inp1.packets 0 0
        · exact remuxTailEvs_no_work env1 p1
  · rcases transcodeRun_shape inp2 env2 p2
      with ⟨hr, hw, _⟩ | ⟨vid, t, hv, htdef, hr, hj, hdL, hjt, hjf⟩
    · have hz : ∀ (p : Ev → Bool), (∀ e, p e = true → isLoopWork e = true) →
          List.countP p (transcodeRun inp2 env2 p2).trace = 0 := by
        intro p hp
        refine List.countP_eq_zero.mpr (fun a ha => ?_)
        intro hc
        have h1 := hw a ha
        rw [hp a hc] at h1
        cases h1
      rw [hz isPoll isLoopWork_of_isPoll, hz isRecvFrame isLoopWork_of_isRecvFrame]
    · have hpe := transLoop_poll_eq env2 inp2.streams (transSetupMapping inp2.streams 0) vid
        inp2.duration inp2.packets [] [] counters0 hnf
      rw [← htdef] at hpe
      have h1 := transStartEvs_no_work env2
      have h2 := transCleanupEvs_no_work env2 p2
      have g1 := countP_zero_of_le _ _ _ isLoopWork_of_isPoll h1
      have g2 := countP_zero_of_le _ _ _ isLoopWork_of_isRecvFrame h1
      have g3 := countP_zero_of_le _ _ _ isLoopWork_of_isPoll h2
      have g4 := countP_zero_of_le _ _ _ isLoopWork_of_isRecvFrame h2
      cases hj1 : t.1
      · obtain ⟨henc, htr⟩ := hjf hj1
        rw [htr]
        simp only [List.countP_append, List.countP_cons]
        have f1 : List.countP isPoll (drainEncFlush env2 t.2.2.1 t.2.2.2.1).2.2 = 0 :=
          countP_zero_of_kinds _ isEncEv _ (drainEncFlush_census env2 t.2.2.1 t.2.2.2.1).2
            (fun e he => by cases e <;> simp_all [isEncEv, isPoll])
        have f2 := (drainEncFlush_no_sendFrame env2 t.2.2.1 t.2.2.2.1).2.1
        have c1 : (if isPoll Ev.flushEnc = true then 1 else 0) = 0 := rfl
        have c2 : (if isRecvFrame Ev.flushEnc = true then 1 else 0) = 0 := rfl
        have c3 : (if isPoll Ev.trailer = true then 1 else 0) = 0 := rfl
        have c4 : (if isRecvFrame Ev.trailer = true then 1 else 0) = 0 := rfl
        omega
      · obtain ⟨henc, htr⟩ := hjt hj1
        rw [htr]
        simp only [List.countP_append]
        omega
  · rcases transcodeRun_shape inp2 env2 p2
      with ⟨hr, hw, _⟩ | ⟨vid, t, hv, htdef, hr, hj, hdL, hjt, hjf⟩
    · have hz : List.countP isCancelPoll (transcodeRun inp2 env2 p2).trace = 0 := by
        refine List.countP_eq_zero.mpr (fun a ha => ?_)
        intro hc
        have h1 := hw a ha
        rw [isLoopWork_of_isCancelPoll a hc] at h1
        cases h1
      exact stopAfterCancel_of_no_poll _ hz
    · have hsa := transLoop_stopAfter env2 inp2.streams (transSetupMapping inp2.streams 0) vid
        inp2.duration inp2.packets [] [] counters0
      rw [← htdef] at hsa
      cases hj1 : t.1
      · obtain ⟨henc, htr⟩ := hjf hj1
        have hcl : List.countP isCancelPoll t.2.2.2.2 = 0 := by
          rcases transLoop_cancel_poll env2 inp2.streams (transSetupMapping inp2.streams 0)
            vid inp2.duration inp2.packets [] [] counters0 with h | h
          · rw [← htdef] at h
            rw [h] at hj1
            cases hj1
          · rw [← htdef] at h
            exact h
        apply stopAfterCancel_of_no_poll
        rw [htr]
        simp only [List.countP_append, List.countP_cons]
        have f1 : List.countP isCancelPoll (drainEncFlush env2 t.2.2.1 t.2.2.2.1).2.2 = 0 :=
          countP_zero_of_kinds _ isEncEv _ (drainEncFlush_census env2 t.2.2.1 t.2.2.2.1).2
            (fun e he => by cases e <;> simp_all [isEncEv, isCancelPoll])
        have g5 := countP_zero_of_le _ _ _ isLoopWork_of_isCancelPoll
          (transStartEvs_no_work env2)
        have g6 := countP_zero_of_le _ _ _ isLoopWork_of_isCancelPoll
          (transCleanupEvs_no_work env2 p2)
        have c1 : (if isCancelPoll Ev.flushEnc = true then 1 else 0) = 0 := rfl
        have c2 : (if isCancelPoll Ev.trailer = true then 1 else 0) = 0 := rfl
        omega
      · obtain ⟨henc, htr⟩ := hjt hj1
        rw [htr, List.append_assoc]
        apply stopAfterCancel_append_left
        · exact countP_zero_of_le _ _ _ isLoopWork_of_isCancelPoll
            (transStartEvs_no_work env2)
        · exact stopAfterCancel_append_right _ _ hsa (transCleanupEvs_no_work env2 p2)

theorem remuxSetupStreams_general (ss : List AVStream) (n : Nat) :
    (remuxSetupStreams ss n).1.length = ss.length ∧
    (remuxSetupStreams ss n).2
        = (List.range ss.length).map (fun i => ((n + i : Nat) : Int)) ∧
    ∀ i, i < ss.length →
      (remuxSetupStreams ss n).1.getD i defaultStream.codecpar
        = { (ss.getD i defaultStream).codecpar with codec_tag := 0 } := by
  induction ss generalizing n with
  | nil => simp [remuxSetupStreams]
  | cons s rest ih =>
    rw [remuxSetupStreams]
    refine ⟨by simp [(ih (n + 1)).1], ?_, ?_⟩
    · rw [List.length_cons, List.range_succ_eq_map, List.map_cons, List.map_map,
        (ih (n + 1)).2.1]
      have hf : ((fun i => ((n + i : Nat) : Int)) ∘ (fun i => i + 1))
          = (fun i : Nat => (((n + 1) + i : Nat) : Int)) := by
        funext i
        simp only [Function.comp]
        congr 1
        omega
      rw [hf]
      simp
    · intro i hi
      cases i with
      | zero => simp
      | succ k =>
        simp only [List.getD_cons_succ]
        exact (ih (n + 1)).2.2 k (by simpa using hi)

theorem findVideoStreamIndex_eq_some (ss : List AVStream) (i : Nat) :
    findVideoStreamIndex ss = some i ↔
      i < ss.length ∧ (ss.getD i defaultStream).codecpar.codec_type = MediaKind.video ∧
        ∀ j, j < i → (ss.getD j defaultStream).codecpar.codec_type ≠ MediaKind.video := by
  induction ss generalizing i with
  | nil => simp [findVideoStreamIndex]
  | cons s rest ih =>
    rw [findVideoStreamIndex]
    by_cases hs : s.codecpar.codec_type = MediaKind.video
    · simp only [if_pos hs]
      constructor
      · intro h
        have hi : i = 0 := by
          injection h with h2
          omega
        subst hi
        exact ⟨by simp, by simpa using hs, by omega⟩
      · rintro ⟨hlen, hvid, hprev⟩
        cases i with
        | zero => rfl
        | succ k => exact absurd (by simpa using hs) (hprev 0 (Nat.succ_pos k))
    · simp only [if_neg hs]
      cases i with
      | zero =>
        constructor
        · intro h
          rcases Option.map_eq_some'.mp h with ⟨k, _, hk⟩
          omega
        · rintro ⟨hlen, hvid, hprev⟩
          rw [List.getD_cons_zero] at hvid
          exact absurd hvid hs
      | succ k =>
        constructor
        · intro h
          rcases Option.map_eq_some'.mp h with ⟨k2, hk2, hke⟩
          have hkk : k2 = k := by omega
          rw [hkk] at hk2
          rcases (ih k).mp hk2 with ⟨hlen, hvid, hprev⟩
          refine ⟨by simpa using hlen, by simpa using hvid, ?_⟩
          intro j hj
          cases j with
          | zero => simpa using hs
          | succ j2 =>
            have := hprev j2 (by omega)
            simpa using this
        · rintro ⟨hlen, hvid, hprev⟩
          have hk : findVideoStreamIndex rest = some k := by
            apply (ih k).mpr
            refine ⟨by simpa using hlen, by simpa using hvid, ?_⟩
            intro j hj
            have := hprev (j + 1) (by omega)
            simpa using this
          rw [hk]
          rfl

theorem findVideoStreamIndex_eq_none (ss : List AVStream)
    (h : ∀ s ∈ ss, s.codecpar.codec_type ≠ MediaKind.video) :
    findVideoStreamIndex ss = none := by
  induction ss with
  | nil => rfl
  | cons s rest ih =>
    rw [findVideoStreamIndex, if_neg (h s (by simp))]
    rw [ih (fun x hx => h x (by simp [hx]))]
    rfl

/-- Claim C5.  The remux stream table maps each of the N input streams to an
output stream: the table has exactly N entries, entry i carries input stream
i's codec parameters verbatim except for a cleared codec tag, and the
input-to-output index mapping is the identity, hence order-preserving,
injective and nonnegative on every entry. -/
theorem remux_stream_table_spec (ss : List AVStream) :
    (remuxSetupStreams ss 0).1.length = ss.length ∧
    (∀ i, i < ss.length →
      (remuxSetupStreams ss 0).1.getD i defaultStream.codecpar
        = { (ss.getD i defaultStream).codecpar with codec_tag := 0 }) ∧
    (remuxSetupStreams ss 0).2 = (List.range ss.length).map (fun i : Nat => (i : Int)) ∧
    (∀ i, i < ss.length → (remuxSetupStreams ss 0).2.getD i (-1) = (i : Int)) ∧
    (∀ i j, i < j → j < ss.length →
      (remuxSetupStreams ss 0).2.getD i (-1) < (remuxSetupStreams ss 0).2.getD j (-1)) ∧
    (∀ i, i < ss.length → 0 ≤ (remuxSetupStreams ss 0).2.getD i (-1)) := by
  rcases remuxSetupStreams_general ss 0 with ⟨hlen, hmap, hpar⟩
  have hmap0 : (remuxSetupStreams ss 0).2 = (List.range ss.length).map (fun i : Nat => (i : Int)) := by
    rw [hmap]
    apply List.map_congr_left
    intro a ha
    congr 1
    omega
  have hget : ∀ k, k < ss.length → (remuxSetupStreams ss 0).2.getD k (-1) = (k : Int) := by
    intro k hk
    rw [hmap0, List.getD_eq_getElem?_getD, List.getElem?_map, List.getElem?_range hk]
    rfl
  refine ⟨hlen, hpar, hmap0, hget, ?_, ?_⟩
  · intro i j hij hj
    rw [hget i (by omega), hget j hj]
    exact_mod_cast hij
  · intro i hi
    rw [hget i hi]
    exact Int.ofNat_nonneg i

/-- Claim C6.  The transcode path selects exactly the first stream in index
order whose kind is video, and on an input with no video stream it logs the
no-video error, never allocates or opens the output, and never reaches the
packet loop. -/
theorem transcode_video_selection (ss : List AVStream) (i : Nat)
    (inp : InputFile) (env : TransEnv) (p : String)
    (hnv : ∀ s ∈ inp.streams, s.codecpar.codec_type ≠ MediaKind.video) :
    (findVideoStreamIndex ss = some i ↔
      i < ss.length ∧ (ss.getD i defaultStream).codecpar.codec_type = MediaKind.video ∧
        ∀ j, j < i → (ss.getD j defaultStream).codecpar.codec_type ≠ MediaKind.video) ∧
    (transcodeRun inp env p).trace
        = [Ev.log "Starting encoding conversion...",
           Ev.log "No video stream found for re-encoding"] ∧
    Ev.allocOut ∉ (transcodeRun inp env p).trace ∧
    Ev.openOut ∉ (transcodeRun inp env p).trace ∧
    (transcodeRun inp env p).reachedLoop = false := by
  have hn := findVideoStreamIndex_eq_none inp.streams hnv
  refine ⟨findVideoStreamIndex_eq_some ss i, ?_, ?_, ?_, ?_⟩ <;>
    simp [transcodeRun, hn]

/-- C1, counterexample: on a one-packet input with a buffering decoder the run
completes normally and writes the trailer, yet no frame is ever received and
the decoder still holds its frame, because the decoder is never flushed. -/
theorem transcode_no_decoder_flush_cex :
    Ev.trailer ∈ (transcodeRun inpVid1 (transEnvOk 1 0) "o").trace ∧
    (transcodeRun inpVid1 (transEnvOk 1 0) "o").jumped = false ∧
    List.countP isRecvFrame (transcodeRun inpVid1 (transEnvOk 1 0) "o").trace = 0 ∧
    (transcodeRun inpVid1 (transEnvOk 1 0) "o").decLeft = [0] := by
  decide

/-- C2, counterexample: two packets submitted, none of the buffered frames is
ever drained (before or after end of stream), so submit-drain plus flush-drain
do not account for every unit the codec holds. -/
theorem transcode_codec_units_lost_cex :
    List.countP isSendPkt (transcodeRun inpVid2 (transEnvOk 2 0) "o").trace = 2 ∧
    List.countP isRecvFrame (transcodeRun inpVid2 (transEnvOk 2 0) "o").trace = 0 ∧
    List.countP isRecvPkt (transcodeRun inpVid2 (transEnvOk 2 0) "o").trace = 0 ∧
    (transcodeRun inpVid2 (transEnvOk 2 0) "o").decLeft.length = 2 ∧
    (transcodeRun inpVid2 (transEnvOk 2 0) "o").jumped = false := by
  decide

/-- C7, counterexample: packets with decreasing presentation timestamps make
the remux loop post a decreasing progress sequence. -/
theorem remux_progress_not_monotone_cex :
    progressVals (remuxRun inpRemuxDec remuxEnvOk "o").trace = [80, 40] ∧ (40 : Int) < 80 := by
  decide

/-- C8, counterexample: with a buffering decoder a packet is read and sent to
the decoder, yet cancellation is never polled, because the poll sits inside
the per-frame drain loop rather than the per-packet loop. -/
theorem transcode_poll_not_per_packet_cex :
    List.countP isSendPkt (transcodeRun inpVid3 (transEnvOk 3 0) "o").trace = 1 ∧
    List.countP isPoll (transcodeRun inpVid3 (transEnvOk 3 0) "o").trace = 0 := by
  decide

/-- C1, witness: a concrete completed run flushes the encoder and empties it. -/
theorem transcode_eof_flushes_encoder_then_trailer_witness :
    Ev.flushEnc ∈ (transcodeRun inpVid2 (transEnvOk 0 0) "w").trace ∧
    (transcodeRun inpVid2 (transEnvOk 0 0) "w").encLeft = [] :=
  ⟨(transcode_eof_flushes_encoder_then_trailer inpVid2 (transEnvOk 0 0) "w"
      (by decide) (by decide) (fun _ => rfl)).1,
   (transcode_eof_flushes_encoder_then_trailer inpVid2 (transEnvOk 0 0) "w"
      (by decide) (by decide) (fun _ => rfl)).2.2.2⟩

/-- C2, witness: on a failure-free, cancellation-free run the encoder ends
empty and the decoder keeps at most its latency. -/
theorem transcode_drain_accounting_witness :
    (transcodeRun inpVid1 (transEnvOk 0 0) "w").decLeft.length ≤ (transEnvOk 0 0).decDelay ∧
    (transcodeRun inpVid1 (transEnvOk 0 0) "w").encLeft = [] :=
  (transcode_drain_accounting inpVid1 (transEnvOk 0 0) "w").2.2.2
    ⟨fun _ => rfl, fun _ => rfl, fun _ => rfl, fun _ => rfl⟩ (fun _ => rfl)

/-- C3, witness: concrete cancelled runs, remux finalising and transcode not. -/
theorem cancel_finalisation_asymmetry_witness :
    Ev.trailer ∈ (remuxRun inpRemuxDec remuxEnvCancel "r").trace ∧
    Ev.trailer ∉ (transcodeRun inpVid1 transEnvCancel "t").trace :=
  ⟨((cancel_finalisation_asymmetry inpRemuxDec remuxEnvCancel "r"
      inpVid1 transEnvCancel "t").1 (by decide)).1,
   ((cancel_finalisation_asymmetry inpRemuxDec remuxEnvCancel "r"
      inpVid1 transEnvCancel "t").2 (by decide)).1⟩

/-- C10, witness: a concrete run ends with close, running reset, finished log. -/
theorem transcode_cleanup_terminal_events_witness :
    ∃ pre, (transcodeRun inpVid3 (transEnvOk 0 1) "w").trace
      = pre ++ (if (transEnvOk 0 1).needsFile then [Ev.closeOut] else []) ++
          [Ev.running false, Ev.log ("Conversion finished. Output: " ++ "w")] :=
  transcode_cleanup_terminal_events inpVid3 (transEnvOk 0 1) "w" (by decide)

/-- C7, witness: a posted progress value is within bounds. -/
theorem progress_bounded_and_gated_witness :
    0 ≤ (80 : Int) ∧ (80 : Int) ≤ 100 ∧ 0 < inpRemuxDec.duration :=
  (progress_bounded_and_gated inpRemuxDec remuxEnvOk "r" inpVid1 (transEnvOk 0 0) "t").1
    80 (by decide)

/-- C8, witness: on a concrete remux run the poll count equals the written
packet count. -/
theorem poll_discipline_witness :
    List.countP isPoll (remuxRun inpRemuxDec remuxEnvOk "r").trace
      = List.countP isWritePkt (remuxRun inpRemuxDec remuxEnvOk "r").trace :=
  (poll_discipline inpRemuxDec remuxEnvOk "r" inpVid1 (transEnvOk 0 0) "t"
    ⟨fun _ => rfl, fun _ => rfl, fun _ => rfl, fun _ => rfl⟩).1

/-- C5, witness: on a two-stream input the table has two entries in order. -/
theorem remux_stream_table_spec_witness :
    (remuxSetupStreams [vStream, aStream] 0).1.length = 2 ∧
    (remuxSetupStreams [vStream, aStream] 0).2.getD 0 (-1)
      < (remuxSetupStreams [vStream, aStream] 0).2.getD 1 (-1) :=
  ⟨by rw [(remux_stream_table_spec [vStream, aStream]).1]; rfl,
   (remux_stream_table_spec [vStream, aStream]).2.2.2.2.1 0 1 (by decide) (by decide)⟩

/-- C6, witness: the first video stream is selected even when it is not
stream 0, and an audio-only input never reaches the loop. -/
theorem transcode_video_selection_witness :
    findVideoStreamIndex [aStream, vStream] = some 1 ∧
    (transcodeRun inpAudioOnly (transEnvOk 0 0) "t").reachedLoop = false :=
  ⟨(transcode_video_selection [aStream, vStream] 1 inpAudioOnly (transEnvOk 0 0) "t"
      (by decide)).1.mpr ⟨by decide, by decide, by decide⟩,
   (transcode_video_selection [aStream, vStream] 1 inpAudioOnly (transEnvOk 0 0) "t"
      (by decide)).2.2.2.2⟩
